import Mathlib

/-!
Verification of the RegexFactory pattern-simplification engine.

This file is a shallow embedding, in Lean 4, of the parts of the
`regexfactory` Python library that the verified properties talk about:

* the pattern AST (`RegexPattern`, `CharRegexPattern`, `Range`, `Set`,
  `LongRegexPattern`, `Or`, `Optional`, `Multi`, `Amount`) with its
  immutable textual rendering (`Pat.regex`, mirroring the `regex`
  attribute computed by each `__init__`),
* textual equality (`patEq`, mirroring `RegexPattern.__eq__` and the
  set-based `Or.__eq__`),
* the example oracle for character-level patterns (`charExamples`,
  mirroring what the external `exrex` generator produces for those
  nodes, which the spec documents as exactly their accepted
  single-character set),
* the canonical-class matcher (`matchSpecialCharRegex`),
* the character-class canonicalizer (`charOrCC`, from
  `CharRegexPattern.__or__`),
* the quantifier algebra (`amountOrStep` and friends, from
  `Amount.__or__`, `Optional.__or__`, `Multi.__or__`),
* the alternation merge (`orOrStep`, from `Or.__or__` together with
  `utils.reduce_regex_list`),
* the concatenation normalizer (`addStep`, from `RegexPattern.__add__`
  and `LongRegexPattern.__add__`),
* the combination generator (`combinationGenerate`, from
  `utils._combination_generate`).

Python's dynamic dispatch (`p | q` runs `type(p).__or__`) is modelled by
a top-level `match` on the node variant.  Mutual recursion between the
merge operations is modelled with an explicit fuel parameter
(`patOrF`/`patAddF`); running out of fuel models Python's
`RecursionError`.  All paths exercised by the theorems below complete
within the given fuel, and the per-method step functions are stated
fuel-free wherever possible.
-/

namespace RegexFactory

/-! ## Character sets used by the example oracle

The repository's oracle is `RegexPattern.examples`, implemented by the
external `exrex` generator.  For character-level patterns the spec
states that the oracle returns exactly the accepted single-character
set; the concrete sets below are the ones `exrex` produces and that the
repository's own tests assert (`DIGIT.examples == set(map(str,
range(10)))`, `DIGIT.examples.issubset(ANY.examples)`, whitespace
containing ' ' and newline).  Example sets are represented as sorted,
duplicate-free lists of characters. -/

/-- The characters generated for the `.` (ANY) class: code points 32..122. -/
def anyChars : List Char := (List.range 91).map (fun n => Char.ofNat (32 + n))

/-- The characters generated for `\d`: the ten ASCII digits. -/
def digitChars : List Char := "0123456789".toList

/-- The characters generated for `\w`: digits, uppercase, underscore,
lowercase — in code-point order. -/
def wordChars : List Char :=
  "0123456789".toList ++ "ABCDEFGHIJKLMNOPQRSTUVWXYZ".toList ++ ['_']
    ++ "abcdefghijklmnopqrstuvwxyz".toList

/-- The characters generated for `\s`: tab, newline, vertical tab,
form feed, carriage return, space. -/
def whitespaceChars : List Char :=
  [Char.ofNat 9, Char.ofNat 10, Char.ofNat 11, Char.ofNat 12, Char.ofNat 13, Char.ofNat 32]

/-- Insert a character into a sorted duplicate-free list, keeping it
sorted and duplicate-free.  Models membership in a Python `set` of
characters. -/
def insChar (c : Char) : List Char → List Char
  | [] => [c]
  | d :: ds =>
    if c.toNat < d.toNat then c :: d :: ds
    else if c.toNat = d.toNat then d :: ds
    else d :: insChar c ds

/-- Normalize a character list to a sorted duplicate-free list: the
canonical representation of a Python `set` of characters. -/
def normSet (l : List Char) : List Char := l.foldr insChar []

/-- Union of two character sets (`set.union` in
`CharRegexPattern.__or__`). -/
def charUnion (a b : List Char) : List Char := normSet (a ++ b)

/-- Set equality of two character lists (Python `==` on the
corresponding `set`s). -/
def charSetEq (a b : List Char) : Bool := normSet a == normSet b

/-- Set inclusion of two character lists (Python `issubset`). -/
def charSubset (a b : List Char) : Bool :=
  (normSet a).all (fun c => (normSet b).contains c)

/-! ## The pattern AST

One constructor per concrete Python class.  Occurrence quantifiers
store the pattern *argument* passed to the constructor; the `_pattern`
attribute (the argument canonicalized through
`CharRegexPattern.match_char_regex`) is recomputed by `canonInner`
below, exactly as `OccurrenceRegexPattern.__init__` computes it. -/

inductive Pat : Type where
  /-- A plain `RegexPattern` wrapping a regex string. -/
  | base : String → Pat
  /-- A `CharRegexPattern` (or `SpecialCharRegexPattern`) wrapping a
  char-level regex string, e.g. the constants `ANY`, `DIGIT`. -/
  | charP : String → Pat
  /-- A `Range(start, stop)` node. -/
  | range : Char → Char → Pat
  /-- A `Set(*chars)` node over single characters (its rendering concatenates
  the member characters between brackets). -/
  | set : List Char → Pat
  /-- A `LongRegexPattern(*patterns)` node: the `_patterns` list. -/
  | long : List Pat → Pat
  /-- An `Or(*patterns)` node: the constructor-argument list; the stored
  `_patterns` set is recovered by `orMembers` below. -/
  | orP : List Pat → Pat
  /-- An `Optional(pattern, greedy)` node. -/
  | opt : Pat → Bool → Pat
  /-- A `Multi(pattern, match_zero, greedy)` node. -/
  | multi : Pat → Bool → Bool → Pat
  /-- An `Amount(pattern, i, j, or_more, greedy)` node. -/
  | amount : Pat → Nat → Option Nat → Bool → Bool → Pat

/-- The amount string (low, optional high, trailing comma for or-more) of `Amount.__init__`. -/
def amountRepr (i : Nat) (j : Option Nat) (orMore : Bool) : String :=
  match j with
  | some jj => toString i ++ "," ++ toString jj
  | none => if orMore then toString i ++ "," else toString i

mutual

/-- The rendered regex text of a node: the `regex` attribute each
`__init__` computes and caches. -/
def Pat.regex : Pat → String
  | .base s => s
  | .charP s => s
  | .range lo hi => "[" ++ String.mk [lo] ++ "-" ++ String.mk [hi] ++ "]"
  | .set cs => "[" ++ String.mk cs ++ "]"
  | .long ps => regexCat ps
  | .orP ps => regexAlt ps
  | .opt p g => "(?:" ++ p.regex ++ ")?" ++ (if g then "" else "?")
  | .multi p mz g => "(?:" ++ p.regex ++ ")" ++ (if mz then "*" else "+") ++ (if g then "" else "?")
  | .amount p i j m g =>
    p.regex ++ "\x7b" ++ amountRepr i j m ++ "\x7d" ++ (if g then "" else "?")

/-- Concatenated rendering of a `LongRegexPattern` member list. -/
def regexCat : List Pat → String
  | [] => ""
  | p :: ps => p.regex ++ regexCat ps

/-- Alternation rendering of an `Or` argument list: each argument
wrapped in a non-capturing group, joined with `|`. -/
def regexAlt : List Pat → String
  | [] => ""
  | [p] => "(?:" ++ p.regex ++ ")"
  | p :: ps => "(?:" ++ p.regex ++ ")" ++ "|" ++ regexAlt ps

end

/-- The four canonical-class constants checked by
`SpecialCharRegexPattern.match_special_char_regex`, in source order. -/
def ANY : Pat := Pat.charP "."

/-- The digit-class constant. -/
def DIGIT : Pat := Pat.charP "\\d"

/-- The word-class constant. -/
def WORD : Pat := Pat.charP "\\w"

/-- The whitespace-class constant. -/
def WHITESPACE : Pat := Pat.charP "\\s"

/-! ## Class tests (Python `isinstance` checks) -/

/-- Whether the node is an `Or` (`isinstance(x, Or)`). -/
def Pat.isOr : Pat → Bool
  | .orP _ => true
  | _ => false

/-- Whether the node is a `CharRegexPattern`
(`isinstance(x, CharRegexPattern)`): the char-level classes and their
subclasses `Range` and `Set`. -/
def Pat.isChar : Pat → Bool
  | .charP _ => true
  | .range _ _ => true
  | .set _ => true
  | _ => false

/-- Whether the node is an `OccurrenceRegexPattern`. -/
def Pat.isOccurrence : Pat → Bool
  | .opt _ _ => true
  | .multi _ _ _ => true
  | .amount _ _ _ _ _ => true
  | _ => false

/-- Whether the node is a `CompositionalRegexPattern` (`Or` or an
occurrence quantifier). -/
def Pat.isCompositional : Pat → Bool
  | .orP _ => true
  | p => p.isOccurrence

/-- Whether the node is a `LongRegexPattern`. -/
def Pat.isLong : Pat → Bool
  | .long _ => true
  | _ => false

/-! ## Equality (`__eq__`)

`RegexPattern.__eq__` compares rendered regex strings.  `Or.__eq__`
compares the stored member sets when both sides are `Or` nodes and
falls back to the textual comparison otherwise; set equality of the
member sets is mutual membership (duplication in the argument lists is
irrelevant).  The nested recursion through `Or` member lists is driven
by an explicit depth parameter so that the function evaluates inside
the kernel; `patEq` supplies a depth that is always sufficient, as
`patEqF_refl` below verifies on the diagonal. -/

mutual

/-- Structural size of a pattern: every node counts one plus its
children. -/
def patSize : Pat → Nat
  | .orP l => 1 + patSizeL l
  | .long l => 1 + patSizeL l
  | .opt p _ => 1 + patSize p
  | .multi p _ _ => 1 + patSize p
  | .amount p _ _ _ _ => 1 + patSize p
  | _ => 1

/-- Accumulated structural size of a pattern list. -/
def patSizeL : List Pat → Nat
  | [] => 0
  | p :: ps => patSize p + patSizeL ps

end

/-- Python `==` between two patterns, at an explicit recursion depth:
two `Or` nodes compare their member sets by mutual membership,
every other pair compares rendered regex text. -/
def patEqF : Nat → Pat → Pat → Bool
  | 0, _, _ => false
  | n + 1, p, q =>
    match p, q with
    | .orP l1, .orP l2 =>
      l1.all (fun x => l2.any (fun y => patEqF n x y)) &&
      l2.all (fun y => l1.any (fun x => patEqF n x y))
    | p, q => p.regex == q.regex

/-- Python `==` between two patterns. -/
def patEq (p q : Pat) : Bool := patEqF (patSize p + patSize q) p q

/-- Whether the pattern is `==` to some member of the list (Python
`in` over a list, and the search of `list.remove`). -/
def patMem (x : Pat) (l : List Pat) : Bool := l.any (fun y => patEq x y)

/-- Every pattern has positive size. -/
theorem patSize_pos (p : Pat) : 1 ≤ patSize p := by
  cases p <;> simp only [patSize] <;> omega

/-- A member's size is bounded by the accumulated list size. -/
theorem patSize_mem_le {x : Pat} : ∀ {l : List Pat}, x ∈ l → patSize x ≤ patSizeL l := by
  intro l hx
  induction l with
  | nil => cases hx
  | cons y ys ih =>
    rcases List.mem_cons.mp hx with h | h
    · subst h
      simp only [patSizeL]
      omega
    · have h1 := ih h
      have h2 := patSize_pos y
      simp only [patSizeL]
      omega

/-- At any sufficient depth, `patEqF` is reflexive: the depth chosen by
`patEq` always suffices on the diagonal. -/
theorem patEqF_refl : ∀ (n : Nat) (p : Pat), patSize p + patSize p ≤ n → patEqF n p p = true := by
  intro n
  induction n using Nat.strong_induction_on with
  | _ n ih =>
    intro p hp
    have hpos := patSize_pos p
    match n, hp with
    | 0, hp => exact absurd hp (by omega)
    | m + 1, hp =>
      cases p with
      | orP l =>
        show (l.all (fun x => l.any (fun y => patEqF m x y)) &&
              l.all (fun y => l.any (fun x => patEqF m x y))) = true
        have hmem : ∀ x ∈ l, patEqF m x x = true := by
          intro x hx
          have hsz := patSize_mem_le hx
          have hlt : patSize x + patSize x ≤ m := by
            simp only [patSize] at hp
            omega
          exact ih m (Nat.lt_succ_self m) x hlt
        have hall1 : l.all (fun x => l.any (fun y => patEqF m x y)) = true := by
          rw [List.all_eq_true]
          intro x hx
          rw [List.any_eq_true]
          exact ⟨x, hx, hmem x hx⟩
        have hall2 : l.all (fun y => l.any (fun x => patEqF m x y)) = true := by
          rw [List.all_eq_true]
          intro y hy
          rw [List.any_eq_true]
          exact ⟨y, hy, hmem y hy⟩
        rw [hall1, hall2]
        rfl
      | base s => simp [patEqF]
      | charP s => simp [patEqF]
      | range a b => simp [patEqF]
      | set cs => simp [patEqF]
      | long l => simp [patEqF]
      | opt p g => simp [patEqF]
      | multi p mz g => simp [patEqF]
      | amount p i j mo g => simp [patEqF]

/-- Python `==` is reflexive. -/
theorem patEq_refl (p : Pat) : patEq p p = true :=
  patEqF_refl (patSize p + patSize p) p (Nat.le_refl _)

/-! ## The example oracle for character-level patterns -/

/-- Whether a character is one of the special regex characters
(`ESCAPED_CHARACTERS` in `pattern.py`); a bare pattern string made of
other characters is a literal, and the oracle generates exactly that
literal for it. -/
def isMetaChar (c : Char) : Bool :=
  "()[]\x7b\x7d?*+-|^$\\.&~#".toList.contains c

/-- Whether a string is a pure literal for the host regex syntax. -/
def isLiteralStr (s : String) : Bool :=
  s.length > 0 && s.toList.all (fun c => !isMetaChar c)

/-- The example set of a character-level pattern: the accepted
single-character set, exactly as the `exrex`-backed `examples` property
produces it for these nodes (spec §4.4 step 1). `none` for nodes whose
single-character example set is not determined here. -/
def charExamples : Pat → Option (List Char)
  | .charP s =>
    if s = "." then some anyChars
    else if s = "\\d" then some digitChars
    else if s = "\\w" then some wordChars
    else if s = "\\s" then some whitespaceChars
    else
      match s.toList with
      | [c] => if isMetaChar c then none else some [c]
      | _ => none
  | .range lo hi =>
    some ((List.range (hi.toNat + 1 - lo.toNat)).map (fun n => Char.ofNat (lo.toNat + n)))
  | .set cs => some (normSet cs)
  | _ => none

/-- The example set of a pattern as a set of strings
(`RegexPattern.examples`): modelled for bare literals and for the
character-level patterns, the only forms the verified operations
evaluate it on. -/
def patExamples : Pat → Option (List String)
  | .base s => if isLiteralStr s then some [s] else none
  | .charP s =>
    match charExamples (.charP s) with
    | some cs => some (cs.map (fun c => String.mk [c]))
    | none => if isLiteralStr s then some [s] else none
  | .range lo hi => (charExamples (.range lo hi)).map (fun cs => cs.map (fun c => String.mk [c]))
  | .set cs => (charExamples (.set cs)).map (fun cs => cs.map (fun c => String.mk [c]))
  | _ => none

/-- Source: `SpecialCharRegexPattern.match_special_char_regex` — if the
example set equals the example set of one of `ANY`, `DIGIT`, `WORD`,
`WHITESPACE` (checked in that order), return that constant. -/
def matchSpecialCharRegex (es : List Char) : Option Pat :=
  if charSetEq es anyChars then some ANY
  else if charSetEq es digitChars then some DIGIT
  else if charSetEq es wordChars then some WORD
  else if charSetEq es whitespaceChars then some WHITESPACE
  else none

/-- Whether a sorted character list is a single run of consecutive code
points. -/
def isConsecutiveRun : List Char → Bool
  | [] => true
  | [_] => true
  | a :: b :: rest => (b.toNat == a.toNat + 1) && isConsecutiveRun (b :: rest)

/-- Modelled from the spec: `CharRegexPattern.match_char_regex` is
called from `OccurrenceRegexPattern.__init__` (patterns.py) and
asserted on in `tests/test_char.py`, but its definition is not under
`src/`.  Modelled from the spec's character-canonicalizer description
(§4.4) and the tests: given the example strings of a pattern, infer the
canonical single-character pattern accepting exactly that set, or
nothing when the examples are not all single characters.  The tests fix
the digit set to `DIGIT` and a consecutive run of length ≥ 3 to a
`Range`; a single character stays a single-character pattern
(`Optional('a') | CharRegexPattern('a') == Optional('a')` requires the
canonicalized inner of `Optional('a')` to render as `a`); any other
single-character set becomes a `Set`. -/
def matchCharRegex (es : List String) : Option Pat :=
  if es.isEmpty then none
  else if es.all (fun s => s.length == 1) then
    let cs := normSet (es.filterMap (fun s => s.toList.head?))
    match matchSpecialCharRegex cs with
    | some sp => some sp
    | none =>
      match cs with
      | [c] => some (.charP (String.mk [c]))
      | _ =>
        if isConsecutiveRun cs && decide (3 ≤ cs.length) then
          match cs, cs.getLast? with
          | c :: _, some d => some (.range c d)
          | _, _ => none
        else some (.set cs)
  else none

/-- The `_pattern` attribute computed by
`OccurrenceRegexPattern.__init__`: the constructor argument, replaced
by `match_char_regex(argument.examples)` when that inference yields a
pattern.  Where the oracle is not modelled (`patExamples` is `none`,
i.e. forms whose examples the verified operations never need) the
argument is kept. -/
def canonInner (p : Pat) : Pat :=
  match patExamples p with
  | some es => (matchCharRegex es).getD p
  | none => p

/-- The canonicalized inner `_pattern` of an occurrence node. -/
def Pat.innerCanon : Pat → Option Pat
  | .opt p _ => some (canonInner p)
  | .multi p _ _ => some (canonInner p)
  | .amount p _ _ _ _ => some (canonInner p)
  | _ => none

/-! ## Python sets of patterns

A Python `set` of patterns deduplicates by hash and `__eq__`.  Hashes
of non-`Or` patterns are the hashes of their rendered strings, so two
non-`Or` patterns collapse exactly when their renderings are equal
(assuming, as we do throughout, that the opaque string hash does not
collide on the finitely many distinct strings in play); two `Or`
patterns collapse when their member sets are equal; an `Or` never
collapses with a non-`Or` (their hashes differ). -/

/-- Whether two patterns occupy the same slot of a Python `set`. -/
def sameSetElem (p q : Pat) : Bool :=
  match p, q with
  | .orP l1, .orP l2 => patEq (.orP l1) (.orP l2)
  | .orP _, _ => false
  | _, .orP _ => false
  | p, q => p.regex == q.regex

/-- Deduplicate a list the way a Python `set` built from it would,
keeping first occurrences (iteration order of the modelled set is its
insertion order; the later filter pass removes later duplicates of the
head, which coincides with filtering before recursing because the
collapse relation is an equivalence on the classes involved). -/
def pyDedup : List Pat → List Pat
  | [] => []
  | x :: xs => x :: (pyDedup xs).filter (fun y => !sameSetElem x y)

/-- The stored `_patterns` member set of an `Or` node
(`set(map(RegexPattern.convert_to_regex_pattern, patterns))`). -/
def orMembers (l : List Pat) : List Pat := pyDedup l

/-! ## Combination Search (`utils._combination_generate`, duplicated as
`CharRegexPattern._combination_generate`) -/

/-- Source: `itertools.combinations(input_list, k)` — all
position-subsequences of length `k`, in lexicographic order of
positions. -/
def combinations {α : Type _} : Nat → List α → List (List α)
  | 0, _ => [[]]
  | _ + 1, [] => []
  | k + 1, x :: xs => (combinations k xs).map (x :: ·) ++ combinations (k + 1) xs

/-- Source: `_combination_generate` — for `i` in
`range(len(input_list)-1, 0, -1)` yield every combination of size `i`:
all non-empty proper sub-collections, largest size first. -/
def combinationGenerate {α : Type _} (l : List α) : List (List α) :=
  ((List.range' 1 (l.length - 1)).reverse).flatMap (fun i => combinations i l)

/-! ## Character-Class Canonicalizer (`CharRegexPattern.__or__`) -/

/-- Source: `CharRegexPattern._group_consecutive` — partition a sorted
list of code points into maximal runs of consecutive values. -/
def groupConsecutive : List Nat → List (List Nat)
  | [] => []
  | [x] => [[x]]
  | x :: y :: rest =>
    match groupConsecutive (y :: rest) with
    | g :: gs => if y == x + 1 then (x :: g) :: gs else [x] :: g :: gs
    | [] => [[x]]

/-- The example set of a char pattern with default, for folds over
constructed `Range`/`Set` fragments (always defined there). -/
def charExamplesD (p : Pat) : List Char := (charExamples p).getD []

/-- Source: `CharRegexPattern._find_merged_regex` — walk every proper
sub-collection of the fragment list (largest first); when the union of
a sub-collection's example sets is exactly a canonical class, record
the mapping, unless an already recorded mapping covers a superset of
those examples. -/
def findMergedRegex (gs : List Pat) : List (List Pat × Pat) :=
  let step := fun (acc : List (List Pat × List Char × Pat)) (mg : List Pat) =>
    let ue := normSet ((mg.map charExamplesD).flatten)
    match matchSpecialCharRegex ue with
    | some sp =>
      if acc.any (fun e => charSubset ue e.2.1) then acc
      else acc ++ [(mg, ue, sp)]
    | none => acc
  ((combinationGenerate gs).foldl step []).map (fun e => (e.1, e.2.2))

/-- Stable insertion (descending by key length) used to model Python's
stable `sorted(keys, key=len, reverse=True)`. -/
def insByLenDesc (x : List Pat × Pat) : List (List Pat × Pat) → List (List Pat × Pat)
  | [] => [x]
  | y :: ys => if y.1.length < x.1.length then x :: y :: ys else y :: insByLenDesc x ys

/-- Stable sort, descending by key length. -/
def sortByLenDesc (xs : List (List Pat × Pat)) : List (List Pat × Pat) :=
  xs.foldl (fun acc x => insByLenDesc x acc) []

/-- Remove the first member `==` to the given pattern
(Python `list.remove`). -/
def removeFirst (x : Pat) : List Pat → List Pat
  | [] => []
  | y :: ys => if patEq x y then ys else y :: removeFirst x ys

/-- Source: `utils.reduce_regex_list` (the same loop appears inline in
`CharRegexPattern.__or__` lines 45-50): apply each recorded mapping,
largest key first, whenever all key members are still present —
removing them and appending the replacement. -/
def reduceRegexList (gs : List Pat) (mapping : List (List Pat × Pat)) : List Pat :=
  (sortByLenDesc mapping).foldl
    (fun cur e =>
      if e.1.all (fun r => patMem r cur) then
        (e.1.foldl (fun c r => removeFirst r c) cur) ++ [e.2]
      else cur)
    gs

/-- The run-partitioned fragment list built by
`CharRegexPattern.__or__` from a union example set (steps 3-4 of spec
§4.4): one `Range` per maximal run of at least three consecutive code
points, plus one `Set` collecting the members of all shorter runs. -/
def charOrBaseGroups (u : List Char) : List Pat :=
  let groups := groupConsecutive ((normSet u).map Char.toNat)
  let simpleGroup :=
    (groups.filter (fun g => g.length == 1)).map (fun g => g.headD 0)
      ++ ((groups.filter (fun g => g.length == 2)).flatten)
  let theRanges := (groups.filter (fun g => decide (3 ≤ g.length))).filterMap (fun g =>
    match g, g.getLast? with
    | c :: _, some d => some (Pat.range (Char.ofNat c) (Char.ofNat d))
    | _, _ => none)
  if simpleGroup.isEmpty then theRanges
  else theRanges ++ [Pat.set (normSet (simpleGroup.map Char.ofNat))]

/-- The final fragment list of `CharRegexPattern.__or__`: the
run-partitioned fragments after canonical-class substitution by the
combination search (step 5 of spec §4.4). -/
def charOrGroups (u : List Char) : List Pat :=
  reduceRegexList (charOrBaseGroups u) (findMergedRegex (charOrBaseGroups u))

/-- The body of `CharRegexPattern.__or__` once the union example set is
known: the canonical-class check first (an early return in the source),
then run partitioning, combination search and the final collapse —
`Or` over the fragments when more than one remains, the single fragment
itself when exactly one remains, and a `Set` of the whole union
otherwise. -/
def charOrOnSet (u : List Char) : Pat :=
  (matchSpecialCharRegex u).getD
    (if 1 < (charOrGroups u).length then Pat.orP (charOrGroups u)
     else if (charOrGroups u).length == 1 then
       (charOrGroups u).headD (Pat.set (normSet u))
     else Pat.set (normSet u))

/-- Source: `CharRegexPattern.__or__` restricted to a char-level
right-hand side (the `isinstance(a, CharRegexPattern)` branch).  Where
the example oracle is not modelled the plain alternation is returned;
no theorem below depends on that fallback. -/
def charOrCC (self a : Pat) : Pat :=
  match charExamples self, charExamples a with
  | some e1, some e2 => charOrOnSet (charUnion e1 e2)
  | _, _ => Pat.orP [self, a]

/-- Source: `CharRegexPattern.__or__` — full dispatch: char-level
right-hand sides go through the canonicalizer; an `Or` whose members
are all char-level patterns is first collapsed to a `Set` over the
union of the members' example sets; anything else becomes a plain
alternation. -/
def charOrStep (self a : Pat) : Pat :=
  if a.isChar then charOrCC self a
  else
    match a with
    | .orP l =>
      let mem := orMembers l
      if mem.all (fun x => x.isChar) then
        charOrCC self (.set (normSet ((mem.map charExamplesD).flatten)))
      else Pat.orP [self, a]
    | _ => Pat.orP [self, a]

/-! ## Quantifier Algebra -/

/-- Source: `Amount._is_simple` — exactly one occurrence. -/
def amountIsSimple (i : Nat) (j : Option Nat) (m : Bool) : Bool :=
  i == 1 && (j == none || j == some 1) && !m

/-- Source: `Amount._is_optional` — the `[0,1]` interval. -/
def amountIsOptional (i : Nat) (j : Option Nat) : Bool :=
  i == 0 && j == some 1

/-- Source: `Amount.is_multi` — unbounded with low 0 or 1. -/
def amountIsMulti (i : Nat) (j : Option Nat) (m : Bool) : Bool :=
  m && j == none && (i == 0 || i == 1)

/-- Source: the `Amount(pattern, lo, or_more=True)` constructions in
`Amount.__or__` followed by `to_multi` when `is_multi` holds. -/
def amountOrMulti (c : Pat) (lo : Nat) : Pat :=
  if lo == 0 || lo == 1 then .multi c (lo == 0) true
  else .amount c lo none true true

/-- Whether Python's `set(range(i1, j1+1)) & set(range(i2, j2+1))` is
non-empty: the closed integer intervals share a point. -/
def rangeIntersects (i1 j1 i2 j2 : Nat) : Bool :=
  max i1 i2 ≤ min j1 j2

/-- The `issubset` oracle test between two patterns, modelled for the
char-level patterns whose example sets are modelled (`false`
elsewhere: the merge rules only merge when the oracle affirmatively
confirms an inclusion, spec §9; no theorem below depends on the
unmodelled cases). -/
def issubsetB (p q : Pat) : Bool :=
  match charExamples p, charExamples q with
  | some a, some b => charSubset a b
  | _, _ => false

/-- Source: `OccurrenceRegexPattern.__lt__` — the merge order between
two quantifiers over the same inner pattern. -/
def occLt (self other : Pat) : Bool :=
  match self, other with
  | .opt _ _, .opt _ _ => false
  | .multi _ mz1 _, .multi _ mz2 _ => mz1 && !mz2
  | .amount _ i1 _ m1 _, .amount _ i2 _ m2 _ => (m2 && !m1) || i1 < i2
  | .opt _ _, _ => true
  | .amount _ _ _ _ _, .opt _ _ => false
  | .amount _ _ _ _ _, .multi _ _ _ => true
  | .multi _ _ _, _ => false
  | _, _ => false

/-- Stable insertion for Python's stable `sorted` under `__lt__`. -/
def insByLt (x : Pat) : List Pat → List Pat
  | [] => [x]
  | y :: ys => if occLt x y then x :: y :: ys else y :: insByLt x ys

/-- Stable sort under `OccurrenceRegexPattern.__lt__`. -/
def sortByLt (l : List Pat) : List Pat := l.foldl (fun acc x => insByLt x acc) []

/-- Source: `OccurrenceRegexPattern.__or__` — union of a quantifier
with an `Or` (argument list `l`): single out the members that are
quantifiers over the same inner pattern, fold them together in sorted
order, and rebuild.  `rec` is the recursive union; `none` models a
Python exception (unbound local when the fold result is neither a
quantifier nor an `Or`) or exhausted recursion depth. -/
def occOrStep (rec : Pat → Pat → Option Pat) (self : Pat) (l : List Pat) : Option Pat :=
  let pats := pyDedup (orMembers l ++ [self])
  let isTarget := fun (q : Pat) =>
    q.isOccurrence && (match q.innerCanon, self.innerCanon with
      | some a, some b => patEq a b
      | _, _ => false)
  let targets := pats.filter isTarget
  let nonTargets := pats.filter (fun q => !isTarget q)
  match sortByLt targets with
  | [] => none
  | t :: ts =>
    match ts.foldlM (fun acc q => rec acc q) t with
    | none => none
    | some reduced =>
      if nonTargets.isEmpty then some reduced
      else if reduced.isOccurrence then some (.orP (pyDedup (nonTargets ++ [reduced])))
      else
        match reduced with
        | .orP rl => some (.orP (pyDedup (nonTargets ++ orMembers rl)))
        | _ => none

/-- Source: `Optional.__or__`. -/
def optOrStep (rec : Pat → Pat → Option Pat) (self other : Pat) : Option Pat :=
  match self with
  | .opt p1 _ =>
    let c1 := canonInner p1
    match other with
    | .orP l => occOrStep rec self l
    | .opt p2 _ =>
      let c2 := canonInner p2
      if patEq c1 c2 then some self
      else (rec c1 c2).map (fun u => .opt u true)
    | .multi p2 _ _ =>
      let c2 := canonInner p2
      if patEq c1 c2 then some (.multi c1 true true)
      else some (.orP [self, other])
    | .amount p2 i2 j2 m2 _ =>
      let c2 := canonInner p2
      if patEq c1 c2 then
        if !m2 && j2.isSome then
          match j2 with
          | some jj2 =>
            if jj2 < 2 then some self
            else if i2 ≤ 2 then some (.amount c1 0 (some jj2) false true)
            else some (.orP [self, other])
          | none => some (.orP [self, other])
        else if !m2 && j2.isNone then
          if i2 < 2 then some self
          else if i2 == 2 then some (.amount c1 0 (some 2) false true)
          else some (.orP [self, other])
        else
          if i2 ≤ 2 then some (.multi c1 true true)
          else some (.orP [self, other])
      else
        if i2 == 0 && j2 == some 1 && !m2 then (rec c1 c2).map (fun u => .opt u true)
        else if i2 == 1 && j2 == none && !m2 then (rec c1 c2).map (fun u => .opt u true)
        else some (.orP [self, other])
    | .base _ => if patEq c1 other then some self else (rec c1 other).map (fun u => .opt u true)
    | .charP _ => if patEq c1 other then some self else (rec c1 other).map (fun u => .opt u true)
    | _ => some (.orP [self, other])
  | _ => none

/-- Source: `Multi.__or__`. -/
def multiOrStep (rec : Pat → Pat → Option Pat) (self other : Pat) : Option Pat :=
  match self with
  | .multi p1 mz1 _ =>
    let c1 := canonInner p1
    match other with
    | .orP l => occOrStep rec self l
    | .opt _ _ => optOrStep rec other self
    | .multi p2 mz2 _ =>
      let c2 := canonInner p2
      if patEq c1 c2 then some (.multi c1 (mz1 || mz2) true)
      else if issubsetB c2 c1 then some (.multi c1 (mz1 || mz2) true)
      else if issubsetB c1 c2 then some (.multi c2 (mz1 || mz2) true)
      else some (.orP [self, other])
    | .amount p2 i2 j2 m2 _ =>
      let c2 := canonInner p2
      if patEq c1 c2 then
        if mz1 then some self
        else some (.multi c1 (i2 == 0) true)
      else
        if issubsetB c2 c1 && (mz1 || 1 ≤ i2) then some self
        else if amountIsMulti i2 j2 m2 then rec self (.multi c2 (i2 == 0) true)
        else some (.orP [self, other])
    | _ => some (.orP [self, other])
  | _ => none

/-- Source: `Amount.__or__`, the `self._pattern == other._pattern`
half: the nine interval configurations, merging on intersection. -/
def amountOrSame (c1 c2 self other : Pat) (i1 : Nat) (j1 : Option Nat) (m1 : Bool)
    (i2 : Nat) (j2 : Option Nat) (m2 : Bool) : Option Pat :=
  match j1 with
  | some jj1 =>
    match j2 with
    | some jj2 =>
      if rangeIntersects i1 jj1 i2 jj2 then
        some (.amount c1 (min i1 i2) (some (max jj1 jj2)) false true)
      else some (.orP [self, other])
    | none =>
      if m2 then
        if i2 ≤ jj1 then some (amountOrMulti c1 (min i1 i2))
        else some (.orP [self, other])
      else
        if i1 ≤ i2 && i2 ≤ jj1 then some self
        else some (.orP [self, other])
  | none =>
    if m1 then
      match j2 with
      | some jj2 =>
        if i1 ≤ jj2 then some (amountOrMulti c1 (min i1 i2))
        else some (.orP [self, other])
      | none =>
        if m2 then some (amountOrMulti c1 (min i1 i2))
        else
          if i1 ≤ i2 then some self
          else some (.orP [self, other])
    else
      match j2 with
      | some jj2 =>
        if i2 ≤ i1 && i1 ≤ jj2 then some other
        else some (.orP [self, other])
      | none =>
        if m2 then
          if i2 ≤ i1 then
            some (if amountIsMulti i2 none m2 then .multi c2 (i2 == 0) true else other)
          else some (.orP [self, other])
        else
          if i1 == i2 then some self
          else some (.orP [self, other])

/-- Source: `Amount.__or__`, the different-inner-pattern half:
subset-driven absorption, merging of degenerate one-occurrence and
optional quantifiers, and the plain alternation fallback. -/
def amountOrDiff (rec : Pat → Pat → Option Pat) (c1 c2 self other : Pat)
    (i1 : Nat) (j1 : Option Nat) (m1 : Bool) (i2 : Nat) (j2 : Option Nat) (m2 : Bool) :
    Option Pat :=
  if i1 == i2 && j1 == j2 && m1 == m2 then
    if issubsetB c2 c1 then some self
    else if issubsetB c1 c2 then some other
    else if amountIsSimple i1 j1 m1 && amountIsSimple i2 j2 m2 then rec c1 c2
    else if amountIsOptional i1 j1 && amountIsOptional i2 j2 then
      (rec c1 c2).map (fun u => .opt u true)
    else some (.orP [self, other])
  else if (amountIsOptional i1 j1 && amountIsSimple i2 j2 m2)
      || (amountIsSimple i1 j1 m1 && amountIsOptional i2 j2) then
    (rec c1 c2).map (fun u => .opt u true)
  else some (.orP [self, other])

/-- Source: `Amount.__or__`. -/
def amountOrStep (rec : Pat → Pat → Option Pat) (self other : Pat) : Option Pat :=
  match self with
  | .amount p1 i1 j1 m1 _ =>
    let c1 := canonInner p1
    match other with
    | .orP l => occOrStep rec self l
    | .charP _ => some (charOrStep other self)
    | .range _ _ => some (charOrStep other self)
    | .set _ => some (charOrStep other self)
    | .opt _ _ => optOrStep rec other self
    | .multi _ _ _ => multiOrStep rec other self
    | .amount p2 i2 j2 m2 _ =>
      let c2 := canonInner p2
      if patEq c1 c2 then amountOrSame c1 c2 self other i1 j1 m1 i2 j2 m2
      else amountOrDiff rec c1 c2 self other i1 j1 m1 i2 j2 m2
    | _ =>
      if amountIsSimple i1 j1 m1 && patEq c1 other then some other
      else if !amountIsSimple i1 j1 m1 && patEq c1 other then
        rec self (.amount other 1 none false true)
      else some (.orP [self, other])
  | _ => none

/-- Stable insertion, ascending by rendered regex text, modelling
Python's stable `sorted(regex_groups, key=str)`. -/
def insByRegex (x : Pat) : List Pat → List Pat
  | [] => [x]
  | y :: ys => if x.regex < y.regex then x :: y :: ys else y :: insByRegex x ys

/-- Stable sort by rendered regex text. -/
def sortByRegex (l : List Pat) : List Pat := l.foldl (fun acc x => insByRegex x acc) []

/-- Source: `Or.__or__` over the argument list of the left `Or`.  For
an `Or` right-hand side, build the pairwise merge mapping, reduce the
union of the member sets with it, sort textually and rebuild; for
anything else defer to the right-hand side's method. -/
def orOrStep (rec : Pat → Pat → Option Pat) (l1 : List Pat) (other : Pat) : Option Pat :=
  match other with
  | .orP l2 =>
    let m1 := orMembers l1
    let m2 := orMembers l2
    let mapping? :=
      m1.foldlM (fun acc left =>
        m2.foldlM (fun acc2 right =>
          if patEq left right then some acc2
          else
            match rec left right with
            | none => none
            | some u => if u.isOr then some acc2 else some (acc2 ++ [([left, right], u)]))
          acc)
        ([] : List (List Pat × Pat))
    match mapping? with
    | none => none
    | some mapping =>
      let groups := pyDedup (m1 ++ m2)
      some (.orP (pyDedup (sortByRegex (reduceRegexList groups mapping))))
  | _ => rec other (.orP l1)

/-- Source: `RegexPattern.__or__` — the base method: equal operands
collapse; compositional or char-level right-hand sides take over;
otherwise a plain alternation. -/
def baseOrStep (rec : Pat → Pat → Option Pat) (self other : Pat) : Option Pat :=
  if patEq self other then some self
  else if other.isCompositional || other.isChar then rec other self
  else some (.orP [self, other])

/-- One step of the union operator `|`: Python's dynamic dispatch to
`type(p).__or__`, with `rec` standing for nested union calls. -/
def patOrStep (rec : Pat → Pat → Option Pat) (p q : Pat) : Option Pat :=
  match p with
  | .orP l => orOrStep rec l q
  | .opt _ _ => optOrStep rec p q
  | .multi _ _ _ => multiOrStep rec p q
  | .amount _ _ _ _ _ => amountOrStep rec p q
  | .charP _ => some (charOrStep p q)
  | .range _ _ => some (charOrStep p q)
  | .set _ => some (charOrStep p q)
  | _ => baseOrStep rec p q

/-- The union operator with explicit recursion depth; `none` models a
Python `RecursionError` (or an exception inside a nested call). -/
def patOrF : Nat → Pat → Pat → Option Pat
  | 0, _, _ => none
  | n + 1, p, q => patOrStep (patOrF n) p q

/-- The union operator `p | q` at a recursion depth sufficient for
every execution considered in this file. -/
def pyOr (p q : Pat) : Option Pat := patOrF 100 p q

/-! ## Concatenation Normalizer (`__add__`) -/

/-- Source: `RegexPattern.__add__` with a pattern right-hand side:
equal operands become `Amount(self, 2)`; a right-hand quantifier whose
inner equals `self` absorbs it (`Optional` → `Amount(self,1,2)`,
`Multi` → drop/keep the zero case, `Amount(i,j)` →
`Amount(self, i+1, j=j, or_more=or_more)` — the upper bound `j` is
left unchanged by the source); a `LongRegexPattern` is prepended to;
anything else forms a two-element sequence. -/
def baseAdd (self other : Pat) : Pat :=
  if patEq self other then .amount self 2 none false true
  else if other.isOccurrence
      && (match other.innerCanon with | some c => patEq self c | none => false) then
    match other with
    | .opt _ _ => .amount self 1 (some 2) false true
    | .multi _ mz _ => if mz then .multi self false true else .amount self 2 none true true
    | .amount _ i j m _ => .amount self (i + 1) j m true
    | _ => .long [self, other]
  else
    match other with
    | .long qs => .long (self :: qs)
    | _ => .long [self, other]

/-- Source: `LongRegexPattern.__add__` over the member list `ps`.
After a successful boundary merge the source rebuilds the left
remainder with `LongRegexPattern(self._patterns[:-1])` — passing the
list itself instead of unpacking it, so the arity assertion fails
whenever that remainder has more than one element; similarly for the
right remainder, whose guard even tests `self._patterns[1:]` instead
of `other._patterns[1:]` and can leave `right` unassigned.  All those
exception paths are `none`. -/
def longAddStep (rec : Pat → Pat → Option Pat) (ps : List Pat) (other : Pat) : Option Pat :=
  match other with
  | .long qs =>
    if patEq (.long ps) (.long qs) then some (.amount (.long ps) 2 none false true)
    else
      match ps.getLast?, qs.head? with
      | some lastP, some firstQ =>
        (rec lastP firstQ).bind (fun tm =>
          if !tm.isLong then
            if 1 < ps.dropLast.length then none
            else if ps.dropLast.length == 1 then
              (ps.head?).bind (fun left =>
                if 1 < qs.tail.length then none
                else if ps.tail.length == 1 then
                  (qs.getLast?).bind (fun right =>
                    (rec left tm).bind (fun r1 => rec r1 right))
                else none)
            else none
          else some (.long (ps ++ qs)))
      | _, _ => none
  | _ =>
    (ps.getLast?).bind (fun lastP =>
      (rec lastP other).bind (fun tm =>
        if !tm.isLong then
          if 1 < ps.dropLast.length then none
          else if ps.dropLast.length == 1 then
            (ps.head?).bind (fun left => rec left tm)
          else none
        else some (.long (ps ++ [other]))))

/-- One step of the concatenation operator `+`: `LongRegexPattern`
overrides `__add__`, every other class uses the base method. -/
def patAddStep (rec : Pat → Pat → Option Pat) (p q : Pat) : Option Pat :=
  match p with
  | .long ps => longAddStep rec ps q
  | _ => some (baseAdd p q)

/-- The concatenation operator with explicit recursion depth. -/
def patAddF : Nat → Pat → Pat → Option Pat
  | 0, _, _ => none
  | n + 1, p, q => patAddStep (patAddF n) p q

/-- The concatenation operator `p + q` at a recursion depth sufficient
for every execution considered in this file. -/
def pyAdd (p q : Pat) : Option Pat := patAddF 100 p q

/-! ## Construction of occurrence nodes (`OccurrenceRegexPattern.__init__`)

Construction converts the argument, asks the example oracle for the
argument's examples — re-raising a generation failure — and runs the
(total) `match_char_regex` inference to obtain `_pattern`.  The oracle
is the external generator; it is passed in as a function together with
its contract in the theorems below. -/

/-- The body of `OccurrenceRegexPattern.__init__`: the only failing
step is the oracle call on the inner pattern's rendering. -/
def occInitE (oracle : String → Except String (List String)) (p : Pat) :
    Except String Pat :=
  match oracle p.regex with
  | .error e => .error e
  | .ok es => .ok ((matchCharRegex es).getD p)

/-- Construction of `Optional(p, greedy)`. -/
def mkOptionalE (oracle : String → Except String (List String)) (p : Pat) (g : Bool) :
    Except String Pat :=
  (occInitE oracle p).map (fun _ => .opt p g)

/-- Construction of `Multi(p, match_zero, greedy)`. -/
def mkMultiE (oracle : String → Except String (List String)) (p : Pat) (mz g : Bool) :
    Except String Pat :=
  (occInitE oracle p).map (fun _ => .multi p mz g)

/-- Construction of `Amount(p, i, j, or_more, greedy)`. -/
def mkAmountE (oracle : String → Except String (List String)) (p : Pat)
    (i : Nat) (j : Option Nat) (m g : Bool) : Except String Pat :=
  (occInitE oracle p).map (fun _ => .amount p i j m g)

/-! ## Left-hand quantifier concatenation (spec §4.6, mirrored rule) -/

/-- The occurrence interval of a node: stored inner pattern, lower
bound, and upper bound (`none` meaning unbounded), reading
`Optional` as `[0,1]`, `Multi` as `[0,∞)`/`[1,∞)` and `Amount` per its
`i`/`j`/`or_more` fields; a non-quantifier is its own inner with
interval `[1,1]`. -/
def quantInfo : Pat → Pat × Nat × Option Nat
  | .opt p _ => (p, 0, some 1)
  | .multi p mz _ => (p, if mz then 0 else 1, none)
  | .amount p i (some j) _ _ => (p, i, some j)
  | .amount p i none m _ => (p, i, if m then none else some i)
  | p => (p, 1, some 1)

/-- The upper bound of an `Amount(i, j, or_more)` in spec §4.5's
interval model (`[i, j]`, `[i, ∞)` or `[i, i]`); `none` is `∞`. -/
def amountHigh : Nat → Option Nat → Bool → Option Nat
  | _, some j, _ => some j
  | i, none, false => some i
  | _, none, true => none

/-- Whether two occurrence intervals share an integer count (`none`
upper bounds meaning `∞`). -/
def ivIntersects (lo1 : Nat) (hi1 : Option Nat) (lo2 : Nat) (hi2 : Option Nat) : Prop :=
  match hi1, hi2 with
  | some a, some b => max lo1 lo2 ≤ min a b
  | some a, none => lo2 ≤ a
  | none, some b => lo1 ≤ b
  | none, none => True

/-- The larger of two interval upper bounds; `∞` dominates. -/
def ivHighMax : Option Nat → Option Nat → Option Nat
  | some a, some b => some (max a b)
  | _, _ => none

/-- Componentwise addition of interval upper bounds; `∞` absorbs. -/
def ivAdd : Option Nat → Option Nat → Option Nat
  | some a, some b => some (a + b)
  | _, _ => none

/-- Modelled from the spec: the concatenation rule for a *left-hand*
occurrence quantifier.  `RegexPattern.__add__` under `src/` only
handles a quantifier on the right; the mirrored case is exercised by
`tests/test_add.py` (`Optional(DIGIT) + Amount(DIGIT, 3) ==
Amount(DIGIT, 3, 4)`, `Multi(DIGIT, match_zero=False) + DIGIT ==
Amount(DIGIT, 2, or_more=True)`, …) but its implementation is not in
`src/`.  Spec §4.6: "the symmetric case (`X` is a quantifier over
`Y`'s inner, concatenated on the left) follows the mirrored rule",
with §4.5's canonicalization (`[0,∞)`/`[1,∞)` stay `Multi` where the
tests keep them).  Each case adds the right element's occurrence
interval to the left quantifier's. -/
def leftQuantAdd (q e : Pat) : Pat :=
  match q, e with
  | .opt p _, .opt _ _ => .amount p 0 (some 2) false true
  | .opt p _, .multi _ mz _ => .multi p mz true
  | .opt p _, .amount _ i (some j) _ _ => .amount p i (some (j + 1)) false true
  | .opt p _, .amount _ i none m _ =>
    if m then .amount p i none true true else .amount p i (some (i + 1)) false true
  | .opt p _, _ => .amount p 1 (some 2) false true
  | .multi p mz _, .opt _ _ => .multi p mz true
  | .multi p mz1 _, .multi _ mz2 _ =>
    if mz1 then .multi p mz2 true
    else if mz2 then .multi p false true
    else .amount p 2 none true true
  | .multi p mz _, .amount _ i _ _ _ =>
    .amount p (if mz then i else i + 1) none true true
  | .multi p mz _, _ => if mz then .multi p false true else .amount p 2 none true true
  | .amount p i (some j) _ _, .opt _ _ => .amount p i (some (j + 1)) false true
  | .amount p i none m _, .opt _ _ =>
    if m then .amount p i none true true else .amount p i (some (i + 1)) false true
  | .amount p i _ _ _, .multi _ mz _ =>
    .amount p (if mz then i else i + 1) none true true
  | .amount p i1 j1 m1 _, .amount _ i2 j2 m2 _ =>
    let h1 := if j1.isSome then j1 else if m1 then none else some i1
    let h2 := if j2.isSome then j2 else if m2 then none else some i2
    match h1, h2 with
    | some a, some b =>
      if i1 + i2 == a + b then .amount p (i1 + i2) none false true
      else .amount p (i1 + i2) (some (a + b)) false true
    | _, _ => .amount p (i1 + i2) none true true
  | .amount p i (some j) _ _, _ => .amount p (i + 1) (some (j + 1)) false true
  | .amount p i none m _, _ =>
    if m then .amount p (i + 1) none true true else .amount p (i + 1) none false true
  | q, _ => q

/-! ## Hashing (`__hash__`) -/

/-- A lemma for the termination of `patHash`: filtering cannot
increase the accumulated size of a pattern list. -/
theorem sizeOf_filter_le (f : Pat → Bool) :
    ∀ l : List Pat, sizeOf (l.filter f) ≤ sizeOf l := by
  intro l
  induction l with
  | nil => simp
  | cons x xs ih =>
    cases hfx : f x <;>
      simp only [List.filter_cons, hfx, Bool.false_eq_true, if_true, if_false,
        List.cons.sizeOf_spec] <;>
      omega

/-- A lemma for the termination of `patHash`: deduplication cannot
increase the accumulated size of a pattern list. -/
theorem sizeOf_pyDedup_le (l : List Pat) : sizeOf (pyDedup l) ≤ sizeOf l := by
  induction l with
  | nil => simp [pyDedup]
  | cons x xs ih =>
    rw [pyDedup]
    simp only [List.cons.sizeOf_spec]
    have h3 := sizeOf_filter_le (fun y => !sameSetElem x y) (pyDedup xs)
    omega

mutual

/-- Python `hash` of a pattern, given the opaque string-hash function
`h`: `RegexPattern.__hash__` hashes the rendered regex text;
`Or.__hash__` starts from the hash of the tag string and adds the hash
of every stored member — an order-independent sum over the
deduplicated member set. -/
def patHash (h : String → Int) : Pat → Int
  | .orP l => h "Or" + hashSum h (pyDedup l)
  | p => h p.regex
termination_by p => sizeOf p
decreasing_by
  simp only [Pat.orP.sizeOf_spec]
  rename_i lm
  have := sizeOf_pyDedup_le lm
  omega

/-- Sum of the hashes of a list of patterns. -/
def hashSum (h : String → Int) : List Pat → Int
  | [] => 0
  | x :: xs => patHash h x + hashSum h xs
termination_by l => sizeOf l
decreasing_by
  all_goals simp only [List.cons.sizeOf_spec]
  all_goals omega

end

/-! ## Properties of the combination generator -/

/-- The generator's blocks enumerate the same sub-collections as
`List.sublistsLen`, in a different (lexicographic-by-position)
order. -/
theorem combinations_perm_sublistsLen {α : Type _} :
    ∀ (l : List α) (k : Nat), (combinations k l).Perm (List.sublistsLen k l) := by
  intro l
  induction l with
  | nil =>
    intro k
    cases k with
    | zero => simp [combinations, List.sublistsLen_zero]
    | succ k => simp [combinations, List.sublistsLen_succ_nil]
  | cons x xs ih =>
    intro k
    cases k with
    | zero => simp [combinations, List.sublistsLen_zero]
    | succ k =>
      rw [List.sublistsLen_succ_cons]
      have h1 : (combinations (k + 1) (x :: xs))
          = ((combinations k xs).map (x :: ·)) ++ combinations (k + 1) xs := rfl
      rw [h1]
      exact (List.Perm.append ((ih k).map _) (ih (k + 1))).trans List.perm_append_comm

/-- Membership in a generator block: the sub-collections of the given
size. -/
theorem mem_combinations_iff {α : Type _} (s l : List α) (k : Nat) :
    s ∈ combinations k l ↔ s.Sublist l ∧ s.length = k :=
  ((combinations_perm_sublistsLen l k).mem_iff).trans List.mem_sublistsLen

/-- Block sizes are binomial coefficients. -/
theorem length_combinations {α : Type _} (k : Nat) (l : List α) :
    (combinations k l).length = l.length.choose k :=
  (combinations_perm_sublistsLen l k).length_eq.trans (List.length_sublistsLen k l)

/-- Partial sums of binomial coefficients over `range' 1 k`. -/
theorem sum_choose_range' (n : Nat) :
    ∀ k, ((List.range' 1 k).map (n.choose ·)).sum + 1 = ∑ i ∈ Finset.range (k + 1), n.choose i := by
  intro k
  induction k with
  | zero => simp
  | succ k ih =>
    rw [List.range'_concat, List.map_append, List.sum_append, Finset.sum_range_succ]
    simp only [List.map_cons, List.map_nil, List.sum_cons, List.sum_nil, Nat.one_mul,
      Nat.add_comm 1 k]
    omega

/-- Pairwise length bound within a length-pure list. -/
theorem pairwise_len_of_const {β : Type _} :
    ∀ (L : List (List β)) (k : Nat), (∀ s ∈ L, s.length = k) →
      List.Pairwise (fun s t : List β => t.length ≤ s.length) L := by
  intro L k
  induction L with
  | nil => intro _; exact List.Pairwise.nil
  | cons s L ih =>
    intro h
    refine List.Pairwise.cons ?_ (ih ?_)
    · intro t ht
      rw [h t (List.mem_cons_of_mem s ht), h s (List.mem_cons_self s L)]
    · intro t ht
      exact h t (List.mem_cons_of_mem s ht)

/-- Descending block structure of a flatMap over a descending key
list. -/
theorem pairwise_flatMap_blocks {α : Type _} (l : List α) :
    ∀ ks : List Nat, List.Pairwise (fun a b => b ≤ a) ks →
      List.Pairwise (fun s t : List α => t.length ≤ s.length)
        (ks.flatMap (fun i => combinations i l)) := by
  intro ks
  induction ks with
  | nil => intro _; exact List.Pairwise.nil
  | cons i is ih =>
    intro hp
    rw [List.flatMap_cons, List.pairwise_append]
    obtain ⟨hall, hp2⟩ := List.pairwise_cons.mp hp
    refine ⟨pairwise_len_of_const _ i (fun s hs => ((mem_combinations_iff s l i).mp hs).2),
      ih hp2, ?_⟩
    intro a ha b hb
    obtain ⟨j, hj, hbj⟩ := List.mem_flatMap.mp hb
    have h1 := ((mem_combinations_iff a l i).mp ha).2
    have h2 := ((mem_combinations_iff b l j).mp hbj).2
    rw [h1, h2]
    exact hall j hj

/-- Nodup of a flatMap over distinct keys, given a duplicate-free
input list. -/
theorem nodup_flatMap_blocks {α : Type _} (l : List α) (hl : l.Nodup) :
    ∀ ks : List Nat, ks.Nodup → (ks.flatMap (fun i => combinations i l)).Nodup := by
  intro ks
  induction ks with
  | nil => intro _; exact List.Pairwise.nil
  | cons i is ih =>
    intro hnd
    rw [List.flatMap_cons, List.nodup_append]
    obtain ⟨hni, hnd2⟩ := List.pairwise_cons.mp hnd
    refine ⟨(combinations_perm_sublistsLen l i).nodup_iff.mpr (List.nodup_sublistsLen i hl),
      ih hnd2, ?_⟩
    intro a ha hb
    obtain ⟨j, hj, hbj⟩ := List.mem_flatMap.mp hb
    have h1 := ((mem_combinations_iff a l i).mp ha).2
    have h2 := ((mem_combinations_iff a l j).mp hbj).2
    exact hni j hj (by omega)

/-- C9: For every list of `n` fragments (`n ≥ 1`), the combination
generator yields exactly the `2^n − 2` non-empty proper
sub-collections — their count is `2^n − 2`, its entries are exactly the
non-empty proper position-subsequences (without repetition when the
input has no duplicates) — in descending size order, and the order is
the deterministic one fixed by the definition. -/
theorem c9_combination_generate {α : Type _} (l : List α) (h1 : 1 ≤ l.length) :
    (combinationGenerate l).length = 2 ^ l.length - 2
    ∧ (∀ s : List α, s ∈ combinationGenerate l ↔ (s.Sublist l ∧ s ≠ [] ∧ s.length < l.length))
    ∧ List.Pairwise (fun s t : List α => t.length ≤ s.length) (combinationGenerate l)
    ∧ (l.Nodup → (combinationGenerate l).Nodup) := by
  refine ⟨?_, ?_, ?_, ?_⟩
  · rw [combinationGenerate, List.length_flatMap, List.map_reverse, List.sum_reverse]
    have hmap : (List.range' 1 (l.length - 1)).map (List.length ∘ fun i => combinations i l)
        = (List.range' 1 (l.length - 1)).map (l.length.choose ·) := by
      apply List.map_congr_left
      intro i _
      exact length_combinations i l
    rw [hmap]
    have hsum := sum_choose_range' l.length (l.length - 1)
    have hn : l.length - 1 + 1 = l.length := by omega
    rw [hn] at hsum
    have htot := Nat.sum_range_choose l.length
    have hsucc := Finset.sum_range_succ (l.length.choose ·) l.length
    rw [htot, Nat.choose_self] at hsucc
    have hpow : 2 ≤ 2 ^ l.length := by
      calc 2 = 2 ^ 1 := rfl
        _ ≤ 2 ^ l.length := Nat.pow_le_pow_right (by omega) h1
    omega
  · intro s
    rw [combinationGenerate, List.mem_flatMap]
    constructor
    · rintro ⟨i, hi, hs⟩
      rw [List.mem_reverse, List.mem_range'] at hi
      obtain ⟨t, ht, rfl⟩ := hi
      obtain ⟨hsub, hlen⟩ := (mem_combinations_iff s l _).mp hs
      refine ⟨hsub, ?_, by omega⟩
      intro hnil
      rw [hnil] at hlen
      simp at hlen
      omega
    · rintro ⟨hsub, hne, hlt⟩
      have hpos : 0 < s.length := List.length_pos.mpr hne
      refine ⟨s.length, ?_, (mem_combinations_iff s l s.length).mpr ⟨hsub, rfl⟩⟩
      rw [List.mem_reverse, List.mem_range']
      exact ⟨s.length - 1, by omega, by omega⟩
  · apply pairwise_flatMap_blocks
    rw [List.pairwise_reverse]
    exact (List.pairwise_lt_range' 1 (l.length - 1)).imp (fun h => Nat.le_of_lt h)
  · intro hnd
    apply nodup_flatMap_blocks l hnd
    rw [List.nodup_reverse]
    exact List.nodup_range' 1 (l.length - 1)

/-- Witness for C9 at the three-element list `[1, 2, 3]`. -/
theorem c9_combination_generate_witness :
    1 ≤ ([1, 2, 3] : List Nat).length
    ∧ (combinationGenerate ([1, 2, 3] : List Nat)).length = 2 ^ 3 - 2 :=
  ⟨by decide, by
    have h := (c9_combination_generate ([1, 2, 3] : List Nat) (by decide)).1
    simpa using h⟩

/-! ## Hashing of Or nodes -/

/-- The member hash sum is the sum of the mapped hashes. -/
theorem hashSum_eq_map_sum (h : String → Int) :
    ∀ l : List Pat, hashSum h l = (l.map (patHash h)).sum := by
  intro l
  induction l with
  | nil => simp [hashSum]
  | cons x xs ih => simp [hashSum, ih]

/-- C10: Hashing of `Or` nodes is consistent with their set-based
equality: two `Or` nodes whose stored (deduplicated) member sets hold
the same patterns — in any order, and regardless of the order or
duplication of the constructor arguments — have equal hash under every
string-hash function, because the hash is an order-independent sum
over the deduplicated member set. -/
theorem c10_or_hash_set_invariant (h : String → Int) (args1 args2 : List Pat)
    (hperm : (orMembers args1).Perm (orMembers args2)) :
    patHash h (Pat.orP args1) = patHash h (Pat.orP args2) := by
  rw [patHash, patHash, hashSum_eq_map_sum, hashSum_eq_map_sum]
  have := (hperm.map (patHash h)).sum_eq
  rw [orMembers, orMembers] at this
  omega

/-- Witness for C10: `Or('a','b','b')` and `Or('b','a')` — a permuted,
duplicated argument list — hash equally under a concrete string
hash. -/
theorem c10_or_hash_set_invariant_witness :
    patHash (fun s => (s.length : Int)) (Pat.orP [Pat.base "a", Pat.base "b", Pat.base "b"])
      = patHash (fun s => (s.length : Int)) (Pat.orP [Pat.base "b", Pat.base "a"]) :=
  c10_or_hash_set_invariant (fun s => (s.length : Int)) _ _ (by
    show List.Perm [Pat.base "a", Pat.base "b"] [Pat.base "b", Pat.base "a"]
    exact List.Perm.swap (Pat.base "b") (Pat.base "a") [])

/-! ## Construction of occurrence nodes -/

/-- C1: Given the documented oracle contract — the example generation
on a rendered fragment succeeds exactly when the fragment is
syntactically valid for the host engine — constructing `Optional(p)`,
`Multi(p)` or `Amount(p, i, j)` over an inner pattern `p` succeeds
exactly when `p`'s rendering is valid: the constructors add no failure
of their own (the `match_char_regex` inference is total), and they do
not mask an oracle failure. -/
theorem c1_occurrence_construction
    (oracle : String → Except String (List String)) (valid : String → Bool)
    (hc : ∀ s, (oracle s).isOk = valid s)
    (p : Pat) (g mz m : Bool) (i : Nat) (j : Option Nat) :
    ((mkOptionalE oracle p g).isOk = valid p.regex)
    ∧ ((mkMultiE oracle p mz g).isOk = valid p.regex)
    ∧ ((mkAmountE oracle p i j m g).isOk = valid p.regex) := by
  have h := hc p.regex
  refine ⟨?_, ?_, ?_⟩ <;>
    · rw [← h]
      simp only [mkOptionalE, mkMultiE, mkAmountE, occInitE]
      cases oracle p.regex <;> rfl

/-- Witness for C1 with a concrete always-succeeding oracle. -/
theorem c1_occurrence_construction_witness :
    (mkOptionalE (fun _ => Except.ok ([] : List String)) (Pat.base "a") true).isOk = true
    ∧ (mkAmountE (fun _ => Except.ok ([] : List String)) (Pat.base "a") 2 none false
        true).isOk = true :=
  have h := c1_occurrence_construction (fun _ => Except.ok ([] : List String))
    (fun _ => true) (fun _ => rfl) (Pat.base "a") true false false 2 none
  ⟨h.1, h.2.2⟩

/-! ## Concatenation with a right-hand quantifier -/

/-- C3 (divergence witness): concatenating `'a'` with `Amount('a',3,5)`
runs the `Amount` absorption branch of `RegexPattern.__add__`, which
increments the lower bound but leaves the finite upper bound unchanged:
the code yields `Amount('a',4,5)` — not the claimed (and semantically
correct) `Amount('a',4,6)`, whose rendering differs. -/
theorem c3_add_amount_upper_bound_not_incremented :
    pyAdd (Pat.base "a") (Pat.amount (Pat.base "a") 3 (some 5) false true)
      = some (Pat.amount (Pat.base "a") 4 (some 5) false true)
    ∧ patEq (Pat.amount (Pat.base "a") 4 (some 5) false true)
        (Pat.amount (Pat.base "a") 4 (some 6) false true) = false
    ∧ (Pat.amount (Pat.base "a") 4 (some 5) false true).regex = "a\x7b4,5\x7d" :=
  ⟨rfl, rfl, rfl⟩

/-! ## Idempotence of union -/

/-- C7 (divergence witness): the char-level union of
`CharRegexPattern('1')` with itself rebuilds the example set as a
one-character `Set`, rendering `[1]` — textually different from the
operand, so `p | p == p` fails (the repository's own test
`CharRegexPattern('1') | CharRegexPattern('1') == CharRegexPattern('1')`
asserts the claimed behaviour). -/
theorem c7_union_not_idempotent_on_char :
    pyOr (Pat.charP "1") (Pat.charP "1") = some (Pat.set ['1'])
    ∧ patEq (Pat.set ['1']) (Pat.charP "1") = false
    ∧ (Pat.set ['1']).regex = "[1]" ∧ (Pat.charP "1").regex = "1" :=
  ⟨rfl, rfl, rfl, rfl⟩

/-! ## Single-member Or nodes -/

/-- C8 (counterexample): the union of `Or(Amount('a',2,4),
Amount('a',4,7))` with itself merges the two members pairwise into
`Amount('a',2,7)` and then rebuilds — wrapping the single merged
member in a one-member `Or` instead of collapsing it. -/
theorem c8_or_or_single_member_counterexample :
    pyOr
      (Pat.orP [Pat.amount (Pat.charP "a") 2 (some 4) false true,
        Pat.amount (Pat.charP "a") 4 (some 7) false true])
      (Pat.orP [Pat.amount (Pat.charP "a") 2 (some 4) false true,
        Pat.amount (Pat.charP "a") 4 (some 7) false true])
      = some (Pat.orP [Pat.amount (Pat.charP "a") 2 (some 7) false true])
    ∧ (orMembers [Pat.amount (Pat.charP "a") 2 (some 7) false true]).length = 1
    ∧ (Pat.orP [Pat.amount (Pat.charP "a") 2 (some 7) false true]).isOr = true :=
  ⟨rfl, rfl, rfl⟩

/-- Removal keeps only original members. -/
theorem mem_removeFirst {x y : Pat} : ∀ {l : List Pat}, y ∈ removeFirst x l → y ∈ l := by
  intro l
  induction l with
  | nil => intro h; exact absurd h (List.not_mem_nil y)
  | cons z zs ih =>
    intro h
    rw [removeFirst] at h
    by_cases hx : patEq x z
    · rw [if_pos hx] at h
      exact List.mem_cons_of_mem z h
    · rw [if_neg hx] at h
      rcases List.mem_cons.mp h with h | h
      · exact h ▸ List.mem_cons_self z zs
      · exact List.mem_cons_of_mem z (ih h)

/-- Iterated removal keeps only original members. -/
theorem mem_foldl_removeFirst {y : Pat} :
    ∀ (rs cur : List Pat), y ∈ rs.foldl (fun c r => removeFirst r c) cur → y ∈ cur := by
  intro rs
  induction rs with
  | nil => intro cur h; exact h
  | cons r rs ih =>
    intro cur h
    exact mem_removeFirst (ih (removeFirst r cur) h)

/-- Stable insertion introduces no new elements. -/
theorem mem_insByLenDesc {e x : List Pat × Pat} :
    ∀ {l : List (List Pat × Pat)}, e ∈ insByLenDesc x l → e = x ∨ e ∈ l := by
  intro l
  induction l with
  | nil =>
    intro h
    rw [insByLenDesc] at h
    rcases List.mem_cons.mp h with h | h
    · exact Or.inl h
    · exact absurd h (List.not_mem_nil e)
  | cons z zs ih =>
    intro h
    rw [insByLenDesc] at h
    split at h
    · rcases List.mem_cons.mp h with h | h
      · exact Or.inl h
      · exact Or.inr h
    · rcases List.mem_cons.mp h with h | h
      · exact Or.inr (h ▸ List.mem_cons_self z zs)
      · rcases ih h with h | h
        · exact Or.inl h
        · exact Or.inr (List.mem_cons_of_mem z h)

/-- The stable sort has the same members. -/
theorem mem_sortByLenDesc {e : List Pat × Pat} (xs : List (List Pat × Pat))
    (h : e ∈ sortByLenDesc xs) : e ∈ xs := by
  rw [sortByLenDesc] at h
  suffices haux : ∀ (ys : List (List Pat × Pat)) (acc : List (List Pat × Pat)),
      e ∈ ys.foldl (fun a x => insByLenDesc x a) acc → e ∈ acc ∨ e ∈ ys by
    rcases haux xs [] h with h | h
    · exact absurd h (List.not_mem_nil e)
    · exact h
  intro ys
  induction ys with
  | nil => intro acc h; exact Or.inl h
  | cons z zs ih =>
    intro acc h
    rcases ih (insByLenDesc z acc) h with h | h
    · rcases mem_insByLenDesc h with h | h
      · exact Or.inr (h ▸ List.mem_cons_self z zs)
      · exact Or.inl h
    · exact Or.inr (List.mem_cons_of_mem z h)

/-- Every member of a reduced fragment list is an original fragment or
a recorded replacement. -/
theorem mem_reduceRegexList {y : Pat} (gs : List Pat) (mapping : List (List Pat × Pat))
    (h : y ∈ reduceRegexList gs mapping) :
    y ∈ gs ∨ ∃ e ∈ mapping, y = e.2 := by
  rw [reduceRegexList] at h
  suffices haux : ∀ (ms : List (List Pat × Pat)) (cur : List Pat),
      y ∈ ms.foldl (fun cur e =>
        if e.1.all (fun r => patMem r cur) then
          (e.1.foldl (fun c r => removeFirst r c) cur) ++ [e.2]
        else cur) cur →
      y ∈ cur ∨ ∃ e ∈ ms, y = e.2 by
    rcases haux (sortByLenDesc mapping) gs h with h | ⟨e, he, hy⟩
    · exact Or.inl h
    · exact Or.inr ⟨e, mem_sortByLenDesc mapping he, hy⟩
  intro ms
  induction ms with
  | nil => intro cur h; exact Or.inl h
  | cons e ms ih =>
    intro cur h
    rw [List.foldl_cons] at h
    rcases ih _ h with h | ⟨e2, he2, hy⟩
    · by_cases hc : e.1.all (fun r => patMem r cur)
      · rw [if_pos hc] at h
        rcases List.mem_append.mp h with h | h
        · exact Or.inl (mem_foldl_removeFirst e.1 cur h)
        · rcases List.mem_cons.mp h with h | h
          · exact Or.inr ⟨e, List.mem_cons_self e ms, h⟩
          · exact absurd h (List.not_mem_nil y)
      · rw [if_neg hc] at h
        exact Or.inl h
    · exact Or.inr ⟨e2, List.mem_cons_of_mem e he2, hy⟩

/-- The canonical-class matcher yields one of the four (non-`Or`)
class constants. -/
theorem matchSpecial_not_or {cs : List Char} {sp : Pat}
    (h : matchSpecialCharRegex cs = some sp) : sp.isOr = false := by
  rw [matchSpecialCharRegex] at h
  split_ifs at h <;> (injection h with h; exact h ▸ rfl)

/-- Every recorded replacement of the combination search is a
canonical-class constant. -/
theorem findMergedRegex_snd (gs : List Pat) :
    ∀ e ∈ findMergedRegex gs, ∃ cs, matchSpecialCharRegex cs = some e.2 := by
  rw [findMergedRegex]
  suffices haux : ∀ (combos : List (List Pat)) (acc : List (List Pat × List Char × Pat)),
      (∀ a ∈ acc, matchSpecialCharRegex a.2.1 = some a.2.2) →
      ∀ a ∈ combos.foldl (fun acc mg =>
          let ue := normSet ((mg.map charExamplesD).flatten)
          match matchSpecialCharRegex ue with
          | some sp =>
            if acc.any (fun e => charSubset ue e.2.1) then acc
            else acc ++ [(mg, ue, sp)]
          | none => acc) acc,
        matchSpecialCharRegex a.2.1 = some a.2.2 by
    intro e he
    obtain ⟨a, ha, rfl⟩ := List.mem_map.mp he
    exact ⟨a.2.1, haux _ [] (fun a h => absurd h (List.not_mem_nil a)) a ha⟩
  intro combos
  induction combos with
  | nil => intro acc hacc a ha; exact hacc a ha
  | cons mg combos ih =>
    intro acc hacc a ha
    refine ih _ ?_ a ha
    intro b hb
    revert hb
    cases hms : matchSpecialCharRegex (normSet ((mg.map charExamplesD).flatten)) with
    | none => simp only [hms]; exact hacc b
    | some sp =>
      simp only [hms]
      split
      · exact hacc b
      · intro hb
        rcases List.mem_append.mp hb with hb | hb
        · exact hacc b hb
        · rcases List.mem_cons.mp hb with hb | hb
          · rw [hb]
            exact hms
          · exact absurd hb (List.not_mem_nil b)

/-- No fragment of the run-partitioned list is an `Or`. -/
theorem charOrBaseGroups_not_or (u : List Char) :
    ∀ x ∈ charOrBaseGroups u, x.isOr = false := by
  intro x hx
  rw [charOrBaseGroups] at hx
  have hrange : ∀ gs : List (List Nat),
      x ∈ gs.filterMap (fun g =>
        match g, g.getLast? with
        | c :: _, some d => some (Pat.range (Char.ofNat c) (Char.ofNat d))
        | _, _ => none) →
      x.isOr = false := by
    intro gs hmem
    obtain ⟨g, _, hg⟩ := List.mem_filterMap.mp hmem
    rcases g with _ | ⟨c, rest⟩
    · exact absurd hg (by simp)
    · cases hlast : (c :: rest).getLast? with
      | none =>
        rw [hlast] at hg
        exact absurd hg (by simp)
      | some d =>
        rw [hlast] at hg
        injection hg with hg
        exact hg ▸ rfl
  split at hx
  · exact hrange _ hx
  · rcases List.mem_append.mp hx with hx | hx
    · exact hrange _ hx
    · rcases List.mem_cons.mp hx with hx | hx
      · exact hx ▸ rfl
      · exact absurd hx (List.not_mem_nil x)

/-- No fragment of the canonicalizer's final fragment list is an
`Or`. -/
theorem charOrGroups_not_or (u : List Char) : ∀ x ∈ charOrGroups u, x.isOr = false := by
  intro x hx
  rw [charOrGroups] at hx
  rcases mem_reduceRegexList _ _ hx with hx | ⟨e, he, hy⟩
  · exact charOrBaseGroups_not_or u x hx
  · obtain ⟨cs, hcs⟩ := findMergedRegex_snd _ e he
    exact hy ▸ matchSpecial_not_or hcs

/-- C8 (amended half): the char-class canonicalizer wraps its result
in an `Or` only when the final fragment list has at least two
fragments; a single remaining fragment is returned unwrapped, and the
canonical-class shortcut never yields an `Or`. -/
theorem c8_char_union_or_needs_two_fragments (a b : Pat) (e1 e2 : List Char)
    (ha : charExamples a = some e1) (hb : charExamples b = some e2)
    (hor : (charOrCC a b).isOr = true) :
    charOrCC a b = Pat.orP (charOrGroups (charUnion e1 e2))
    ∧ 2 ≤ (charOrGroups (charUnion e1 e2)).length := by
  have hcc : charOrCC a b = charOrOnSet (charUnion e1 e2) := by
    simp only [charOrCC.eq_def, ha, hb]
  rw [hcc] at hor ⊢
  rw [charOrOnSet] at hor ⊢
  cases hms : matchSpecialCharRegex (charUnion e1 e2) with
  | some sp =>
    rw [hms] at hor
    rw [Option.getD_some] at hor
    exact absurd hor (by rw [matchSpecial_not_or hms]; exact Bool.false_ne_true)
  | none =>
    rw [hms] at hor
    rw [Option.getD_none] at hor ⊢
    by_cases hlen : 1 < (charOrGroups (charUnion e1 e2)).length
    · rw [if_pos hlen] at hor ⊢
      exact ⟨rfl, by omega⟩
    · exfalso
      rw [if_neg hlen] at hor
      by_cases h1 : (charOrGroups (charUnion e1 e2)).length == 1
      · rw [if_pos h1] at hor
        rcases hgl : charOrGroups (charUnion e1 e2) with _ | ⟨g, rest⟩
        · rw [hgl] at h1
          simp at h1
        · rcases rest with _ | ⟨g2, rest2⟩
          · rw [hgl, List.headD_cons] at hor
            have hno := charOrGroups_not_or (charUnion e1 e2) g
              (by rw [hgl]; exact List.mem_cons_self g [])
            rw [hno] at hor
            exact Bool.false_ne_true hor
          · rw [hgl] at hlen
            exact hlen (by simp only [List.length_cons]; omega)
      · rw [if_neg h1] at hor
        exact Bool.false_ne_true hor

/-- Witness for the amended C8 at `Range('0','4') | Range('7','9')`,
which stays a two-member alternation. -/
theorem c8_char_union_or_needs_two_fragments_witness :
    charExamples (Pat.range '0' '4') = some ['0', '1', '2', '3', '4']
    ∧ (charOrCC (Pat.range '0' '4') (Pat.range '7' '9')).isOr = true
    ∧ 2 ≤ (charOrGroups (charUnion ['0', '1', '2', '3', '4'] ['7', '8', '9'])).length :=
  ⟨rfl, rfl,
    (c8_char_union_or_needs_two_fragments (Pat.range '0' '4') (Pat.range '7' '9')
      ['0', '1', '2', '3', '4'] ['7', '8', '9'] rfl rfl rfl).2⟩

/-! ## Canonical-class priority of the char union -/

/-- C6: in the union of two char-level fragments, when the union of
their example sets is recognized as one of the canonical classes
(`ANY`, `DIGIT`, `WORD`, `WHITESPACE`), that class constant is
returned directly — before (and regardless of) run partitioning and
the combination search. -/
theorem c6_char_union_canonical_class_priority (a b : Pat) (e1 e2 : List Char) (sp : Pat)
    (ha : charExamples a = some e1) (hb : charExamples b = some e2)
    (hsp : matchSpecialCharRegex (charUnion e1 e2) = some sp) :
    charOrCC a b = sp := by
  simp only [charOrCC.eq_def, ha, hb]
  rw [charOrOnSet, hsp, Option.getD_some]

/-- Witness for C6: `Range('0','4') | Range('3','9') == DIGIT`,
through the dispatched union operator as well. -/
theorem c6_char_union_canonical_class_priority_witness :
    matchSpecialCharRegex
        (charUnion ['0', '1', '2', '3', '4'] ['3', '4', '5', '6', '7', '8', '9'])
      = some DIGIT
    ∧ charOrCC (Pat.range '0' '4') (Pat.range '3' '9') = DIGIT
    ∧ pyOr (Pat.range '0' '4') (Pat.range '3' '9') = some DIGIT :=
  ⟨rfl,
    c6_char_union_canonical_class_priority (Pat.range '0' '4') (Pat.range '3' '9')
      ['0', '1', '2', '3', '4'] ['3', '4', '5', '6', '7', '8', '9'] DIGIT rfl rfl rfl,
    rfl⟩

/-! ## Associativity of concatenation -/

/-- C5 (counterexample): `('x' + 'x') + 'y'` merges the equal pair
first and renders `x{2}y`, while `'x' + ('x' + 'y')` prepends to the
two-element sequence without boundary merging and renders `xxy`.
Pairwise distinctness of the fragments does not restore associativity
either: for the pairwise-unequal `'xy', 'x', 'y'`, the grouping
`('xy' + 'x') + 'y'` renders `xyxy`, while `'xy' + ('x' + 'y')` hits
the whole-operand equality branch of `RegexPattern.__add__` (`'xy'`
equals the rendered pair `'x' + 'y'`) and renders `xy{2}`. -/
theorem c5_concatenation_not_associative :
    (((pyAdd (Pat.base "x") (Pat.base "x")).bind (fun r => pyAdd r (Pat.base "y")))
      = some (Pat.long [Pat.amount (Pat.base "x") 2 none false true, Pat.base "y"])
    ∧ ((pyAdd (Pat.base "x") (Pat.base "y")).bind (fun r => pyAdd (Pat.base "x") r))
      = some (Pat.long [Pat.base "x", Pat.base "x", Pat.base "y"])
    ∧ (Pat.long [Pat.amount (Pat.base "x") 2 none false true, Pat.base "y"]).regex
        = "x\x7b2\x7dy"
    ∧ (Pat.long [Pat.base "x", Pat.base "x", Pat.base "y"]).regex = "xxy"
    ∧ ("x\x7b2\x7dy" : String) ≠ "xxy")
    ∧ (patEq (Pat.base "xy") (Pat.base "x") = false
    ∧ patEq (Pat.base "x") (Pat.base "y") = false
    ∧ ((pyAdd (Pat.base "xy") (Pat.base "x")).bind (fun r => pyAdd r (Pat.base "y")))
      = some (Pat.long [Pat.base "xy", Pat.base "x", Pat.base "y"])
    ∧ ((pyAdd (Pat.base "x") (Pat.base "y")).bind (fun r => pyAdd (Pat.base "xy") r))
      = some (Pat.amount (Pat.base "xy") 2 none false true)
    ∧ (Pat.long [Pat.base "xy", Pat.base "x", Pat.base "y"]).regex = "xyxy"
    ∧ (Pat.amount (Pat.base "xy") 2 none false true).regex = "xy\x7b2\x7d"
    ∧ ("xyxy" : String) ≠ "xy\x7b2\x7d") :=
  ⟨⟨rfl, rfl, rfl, rfl, by decide⟩, rfl, rfl, rfl, rfl, rfl, rfl, by decide⟩

/-- C5 (amended): for plain base fragments none of which merges with a
neighbour — pairwise unequal, the left one unequal to the rendered
right pair — both association orders of `+` produce the same
three-element sequence, at every sufficient recursion depth. -/
theorem c5_concatenation_assoc_amended (n : Nat) (sa sb sc : String)
    (hab : patEq (Pat.base sa) (Pat.base sb) = false)
    (hbc : patEq (Pat.base sb) (Pat.base sc) = false)
    (habc : patEq (Pat.base sa) (Pat.long [Pat.base sb, Pat.base sc]) = false) :
    ((patAddF (n + 2) (Pat.base sa) (Pat.base sb)).bind
        (fun r => patAddF (n + 2) r (Pat.base sc)))
      = some (Pat.long [Pat.base sa, Pat.base sb, Pat.base sc])
    ∧ ((patAddF (n + 2) (Pat.base sb) (Pat.base sc)).bind
        (fun r => patAddF (n + 2) (Pat.base sa) r))
      = some (Pat.long [Pat.base sa, Pat.base sb, Pat.base sc]) := by
  have hstep1 : baseAdd (Pat.base sa) (Pat.base sb) = Pat.long [Pat.base sa, Pat.base sb] := by
    rw [baseAdd.eq_def]
    simp only [hab, Pat.isOccurrence, Bool.false_eq_true, if_false, Bool.false_and]
  have hstep2 : baseAdd (Pat.base sb) (Pat.base sc) = Pat.long [Pat.base sb, Pat.base sc] := by
    rw [baseAdd.eq_def]
    simp only [hbc, Pat.isOccurrence, Bool.false_eq_true, if_false, Bool.false_and]
  have hstep3 : baseAdd (Pat.base sa) (Pat.long [Pat.base sb, Pat.base sc])
      = Pat.long [Pat.base sa, Pat.base sb, Pat.base sc] := by
    rw [baseAdd.eq_def]
    simp only [habc, Pat.isOccurrence, Bool.false_eq_true, if_false, Bool.false_and]
  constructor
  · show ((patAddStep (patAddF (n + 1)) (Pat.base sa) (Pat.base sb)).bind
        (fun r => patAddStep (patAddF (n + 1)) r (Pat.base sc)))
      = some (Pat.long [Pat.base sa, Pat.base sb, Pat.base sc])
    rw [patAddStep.eq_def]
    simp only [hstep1, Option.some_bind]
    show longAddStep (patAddF (n + 1)) [Pat.base sa, Pat.base sb] (Pat.base sc)
      = some (Pat.long [Pat.base sa, Pat.base sb, Pat.base sc])
    rw [longAddStep.eq_def]
    show (([Pat.base sa, Pat.base sb].getLast?).bind (fun lastP =>
        (patAddF (n + 1) lastP (Pat.base sc)).bind (fun tm =>
          if !tm.isLong then
            if 1 < [Pat.base sa, Pat.base sb].dropLast.length then none
            else if [Pat.base sa, Pat.base sb].dropLast.length == 1 then
              ([Pat.base sa, Pat.base sb].head?).bind (fun left => patAddF (n + 1) left tm)
            else none
          else some (.long ([Pat.base sa, Pat.base sb] ++ [Pat.base sc])))))
      = some (Pat.long [Pat.base sa, Pat.base sb, Pat.base sc])
    have hlast : [Pat.base sa, Pat.base sb].getLast? = some (Pat.base sb) := rfl
    rw [hlast, Option.some_bind]
    show (patAddStep (patAddF n) (Pat.base sb) (Pat.base sc)).bind _
      = some (Pat.long [Pat.base sa, Pat.base sb, Pat.base sc])
    rw [patAddStep.eq_def]
    simp only [hstep2, Option.some_bind, Pat.isLong, Bool.not_true, Bool.false_eq_true,
      if_false]
    rfl
  · show ((patAddStep (patAddF (n + 1)) (Pat.base sb) (Pat.base sc)).bind
        (fun r => patAddStep (patAddF (n + 1)) (Pat.base sa) r))
      = some (Pat.long [Pat.base sa, Pat.base sb, Pat.base sc])
    rw [patAddStep.eq_def]
    simp only [hstep2, Option.some_bind]
    show patAddStep (patAddF n) (Pat.base sa) (Pat.long [Pat.base sb, Pat.base sc])
      = some (Pat.long [Pat.base sa, Pat.base sb, Pat.base sc])
    rw [patAddStep.eq_def]
    simp only [hstep3]

/-- Witness for the amended C5 at `'x' + 'y' + 'z'`. -/
theorem c5_concatenation_assoc_amended_witness :
    patEq (Pat.base "x") (Pat.base "y") = false
    ∧ ((patAddF 2 (Pat.base "x") (Pat.base "y")).bind
        (fun r => patAddF 2 r (Pat.base "z")))
      = some (Pat.long [Pat.base "x", Pat.base "y", Pat.base "z"]) :=
  ⟨rfl, (c5_concatenation_assoc_amended 0 "x" "y" "z" rfl rfl rfl).1⟩

/-! ## Union of two Amount quantifiers over the same inner pattern -/

/-- For two `Amount` nodes over the same inner pattern, the dispatched
union runs the same-inner half of `Amount.__or__`. -/
theorem amountOr_same_reduce (rec : Pat → Pat → Option Pat) (p : Pat)
    (i1 i2 : Nat) (j1 j2 : Option Nat) (m1 m2 g1 g2 : Bool) :
    patOrStep rec (Pat.amount p i1 j1 m1 g1) (Pat.amount p i2 j2 m2 g2)
      = amountOrSame (canonInner p) (canonInner p)
          (Pat.amount p i1 j1 m1 g1) (Pat.amount p i2 j2 m2 g2) i1 j1 m1 i2 j2 m2 := by
  show (if patEq (canonInner p) (canonInner p) = true then
      amountOrSame (canonInner p) (canonInner p)
        (Pat.amount p i1 j1 m1 g1) (Pat.amount p i2 j2 m2 g2) i1 j1 m1 i2 j2 m2
    else amountOrDiff rec (canonInner p) (canonInner p)
        (Pat.amount p i1 j1 m1 g1) (Pat.amount p i2 j2 m2 g2) i1 j1 m1 i2 j2 m2) = _
  rw [patEq_refl, if_pos rfl]

/-- C2 (amended): for two `Amount` quantifiers over the same inner
pattern `p`, with well-formed intervals (spec §3's invariant
`high ≥ low`) and a rendering-preserving inner canonicalization, the
union merges exactly when the two occurrence intervals *intersect* —
share at least one integer count — and then yields a single
occurrence-quantifier node over `[min low₁ low₂, max high₁ high₂]`
with `∞` dominating any finite bound (canonicalized to `Multi` where
the source applies `to_multi`), its inner rendering `p`'s; when the
intervals do not intersect — including merely adjacent ones — the
union is the explicit `Or` of the two quantifiers. -/
theorem c2_amount_union_merges_iff_intervals_intersect
    (rec : Pat → Pat → Option Pat) (p : Pat)
    (i1 i2 : Nat) (j1 j2 : Option Nat) (m1 m2 g1 g2 : Bool)
    (hw1 : ∀ a, j1 = some a → i1 ≤ a) (hw2 : ∀ b, j2 = some b → i2 ≤ b)
    (hcanon : (canonInner p).regex = p.regex) :
    (ivIntersects i1 (amountHigh i1 j1 m1) i2 (amountHigh i2 j2 m2) →
      ∃ r, patOrStep rec (Pat.amount p i1 j1 m1 g1) (Pat.amount p i2 j2 m2 g2) = some r
        ∧ r.isOccurrence = true
        ∧ (quantInfo r).2.1 = min i1 i2
        ∧ (quantInfo r).2.2 = ivHighMax (amountHigh i1 j1 m1) (amountHigh i2 j2 m2)
        ∧ (quantInfo r).1.regex = p.regex)
    ∧ (¬ ivIntersects i1 (amountHigh i1 j1 m1) i2 (amountHigh i2 j2 m2) →
      patOrStep rec (Pat.amount p i1 j1 m1 g1) (Pat.amount p i2 j2 m2 g2)
        = some (Pat.orP [Pat.amount p i1 j1 m1 g1, Pat.amount p i2 j2 m2 g2])) := by
  have hmulti : ∀ (c : Pat) (lo : Nat), lo ≤ 1 →
      amountOrMulti c lo = Pat.multi c (lo == 0) true := by
    intro c lo hlo
    rw [amountOrMulti, if_pos (by simp only [Bool.or_eq_true, beq_iff_eq]; omega)]
  have hmultiInfo : ∀ (c : Pat) (lo : Nat), lo ≤ 1 →
      quantInfo (Pat.multi c (lo == 0) true) = (c, lo, none) := by
    intro c lo hlo
    rcases Nat.le_one_iff_eq_zero_or_eq_one.mp hlo with rfl | rfl <;> rfl
  have hbig : ∀ (c : Pat) (lo : Nat), 1 < lo →
      amountOrMulti c lo = Pat.amount c lo none true true := by
    intro c lo hlo
    rw [amountOrMulti, if_neg (by simp only [Bool.or_eq_true, beq_iff_eq]; omega)]
  rw [amountOr_same_reduce rec p i1 i2 j1 j2 m1 m2 g1 g2]
  rcases j1 with _ | jj1 <;> rcases j2 with _ | jj2
  -- j1 = none, j2 = none
  · cases m1 <;> cases m2
    -- exact / exact
    · constructor
      · intro h
        simp only [amountHigh, ivIntersects] at h
        refine ⟨Pat.amount p i1 none false g1, ?_, rfl, ?_, ?_, rfl⟩
        · show (if (i1 == i2) = true then some (Pat.amount p i1 none false g1)
              else some (Pat.orP [Pat.amount p i1 none false g1,
                Pat.amount p i2 none false g2]))
            = some (Pat.amount p i1 none false g1)
          rw [if_pos (by simp only [beq_iff_eq]; omega)]
        · show i1 = min i1 i2
          omega
        · show (some i1 : Option Nat) = some (max i1 i2)
          rw [Option.some.injEq]
          omega
      · intro h
        simp only [amountHigh, ivIntersects] at h
        show (if (i1 == i2) = true then some (Pat.amount p i1 none false g1)
            else some (Pat.orP [Pat.amount p i1 none false g1,
              Pat.amount p i2 none false g2]))
          = some (Pat.orP [Pat.amount p i1 none false g1, Pat.amount p i2 none false g2])
        rw [if_neg (by simp only [beq_iff_eq]; omega)]
    -- exact / or-more
    · constructor
      · intro h
        simp only [amountHigh, ivIntersects] at h
        by_cases hsm : i2 ≤ 1
        · refine ⟨Pat.multi (canonInner p) (i2 == 0) true, ?_, rfl, ?_, rfl, hcanon⟩
          · show (if i2 ≤ i1 then
                some (if amountIsMulti i2 none true = true then
                    Pat.multi (canonInner p) (i2 == 0) true
                  else Pat.amount p i2 none true g2)
              else some (Pat.orP [Pat.amount p i1 none false g1,
                Pat.amount p i2 none true g2]))
              = some (Pat.multi (canonInner p) (i2 == 0) true)
            rw [if_pos (by omega),
              if_pos (by simp [amountIsMulti]; omega)]
          · rw [hmultiInfo _ _ hsm]
            show i2 = min i1 i2
            omega
        · refine ⟨Pat.amount p i2 none true g2, ?_, rfl, ?_, rfl, rfl⟩
          · show (if i2 ≤ i1 then
                some (if amountIsMulti i2 none true = true then
                    Pat.multi (canonInner p) (i2 == 0) true
                  else Pat.amount p i2 none true g2)
              else some (Pat.orP [Pat.amount p i1 none false g1,
                Pat.amount p i2 none true g2]))
              = some (Pat.amount p i2 none true g2)
            rw [if_pos (by omega),
              if_neg (by simp [amountIsMulti]; omega)]
          · show i2 = min i1 i2
            omega
      · intro h
        simp only [amountHigh, ivIntersects] at h
        show (if i2 ≤ i1 then
            some (if amountIsMulti i2 none true = true then
                Pat.multi (canonInner p) (i2 == 0) true
              else Pat.amount p i2 none true g2)
          else some (Pat.orP [Pat.amount p i1 none false g1,
            Pat.amount p i2 none true g2]))
          = some (Pat.orP [Pat.amount p i1 none false g1, Pat.amount p i2 none true g2])
        rw [if_neg (by omega)]
    -- or-more / exact
    · constructor
      · intro h
        simp only [amountHigh, ivIntersects] at h
        refine ⟨Pat.amount p i1 none true g1, ?_, rfl, ?_, rfl, rfl⟩
        · show (if i1 ≤ i2 then some (Pat.amount p i1 none true g1)
              else some (Pat.orP [Pat.amount p i1 none true g1,
                Pat.amount p i2 none false g2]))
            = some (Pat.amount p i1 none true g1)
          rw [if_pos (by omega)]
        · show i1 = min i1 i2
          omega
      · intro h
        simp only [amountHigh, ivIntersects] at h
        show (if i1 ≤ i2 then some (Pat.amount p i1 none true g1)
            else some (Pat.orP [Pat.amount p i1 none true g1,
              Pat.amount p i2 none false g2]))
          = some (Pat.orP [Pat.amount p i1 none true g1, Pat.amount p i2 none false g2])
        rw [if_neg (by omega)]
    -- or-more / or-more
    · constructor
      · intro h
        by_cases hsm : min i1 i2 ≤ 1
        · refine ⟨Pat.multi (canonInner p) (min i1 i2 == 0) true, ?_, rfl, ?_, rfl, hcanon⟩
          · show some (amountOrMulti (canonInner p) (min i1 i2))
              = some (Pat.multi (canonInner p) (min i1 i2 == 0) true)
            rw [hmulti _ _ hsm]
          · rw [hmultiInfo _ _ hsm]
        · refine ⟨Pat.amount (canonInner p) (min i1 i2) none true true, ?_, rfl, rfl, rfl,
            hcanon⟩
          show some (amountOrMulti (canonInner p) (min i1 i2))
            = some (Pat.amount (canonInner p) (min i1 i2) none true true)
          rw [hbig _ _ (by omega)]
      · intro h
        exact absurd trivial h
  -- j1 = none, j2 = some jj2
  · cases m1
    -- exact / bounded
    · constructor
      · intro h
        simp only [amountHigh, ivIntersects] at h
        have h2 := hw2 jj2 rfl
        refine ⟨Pat.amount p i2 (some jj2) m2 g2, ?_, rfl, ?_, ?_, rfl⟩
        · show (if (decide (i2 ≤ i1) && decide (i1 ≤ jj2)) = true then
              some (Pat.amount p i2 (some jj2) m2 g2)
            else some (Pat.orP [Pat.amount p i1 none false g1,
              Pat.amount p i2 (some jj2) m2 g2]))
            = some (Pat.amount p i2 (some jj2) m2 g2)
          rw [if_pos (by simp only [Bool.and_eq_true, decide_eq_true_eq]; omega)]
        · show i2 = min i1 i2
          omega
        · show (some jj2 : Option Nat) = some (max i1 jj2)
          rw [Option.some.injEq]
          omega
      · intro h
        simp only [amountHigh, ivIntersects] at h
        have h2 := hw2 jj2 rfl
        show (if (decide (i2 ≤ i1) && decide (i1 ≤ jj2)) = true then
            some (Pat.amount p i2 (some jj2) m2 g2)
          else some (Pat.orP [Pat.amount p i1 none false g1,
            Pat.amount p i2 (some jj2) m2 g2]))
          = some (Pat.orP [Pat.amount p i1 none false g1, Pat.amount p i2 (some jj2) m2 g2])
        rw [if_neg (by simp only [Bool.and_eq_true, decide_eq_true_eq]; omega)]
    -- or-more / bounded
    · constructor
      · intro h
        simp only [amountHigh, ivIntersects] at h
        by_cases hsm : min i1 i2 ≤ 1
        · refine ⟨Pat.multi (canonInner p) (min i1 i2 == 0) true, ?_, rfl, ?_, rfl, hcanon⟩
          · show (if i1 ≤ jj2 then
                some (amountOrMulti (canonInner p) (min i1 i2))
              else some (Pat.orP [Pat.amount p i1 none true g1,
                Pat.amount p i2 (some jj2) m2 g2]))
              = some (Pat.multi (canonInner p) (min i1 i2 == 0) true)
            rw [if_pos (by omega), hmulti _ _ hsm]
          · rw [hmultiInfo _ _ hsm]
        · refine ⟨Pat.amount (canonInner p) (min i1 i2) none true true, ?_, rfl, rfl, rfl,
            hcanon⟩
          show (if i1 ≤ jj2 then
              some (amountOrMulti (canonInner p) (min i1 i2))
            else some (Pat.orP [Pat.amount p i1 none true g1,
              Pat.amount p i2 (some jj2) m2 g2]))
            = some (Pat.amount (canonInner p) (min i1 i2) none true true)
          rw [if_pos (by omega), hbig _ _ (by omega)]
      · intro h
        simp only [amountHigh, ivIntersects] at h
        show (if i1 ≤ jj2 then
            some (amountOrMulti (canonInner p) (min i1 i2))
          else some (Pat.orP [Pat.amount p i1 none true g1,
            Pat.amount p i2 (some jj2) m2 g2]))
          = some (Pat.orP [Pat.amount p i1 none true g1, Pat.amount p i2 (some jj2) m2 g2])
        rw [if_neg (by omega)]
  -- j1 = some jj1, j2 = none
  · cases m2
    -- bounded / exact
    · constructor
      · intro h
        simp only [amountHigh, ivIntersects] at h
        have h1 := hw1 jj1 rfl
        refine ⟨Pat.amount p i1 (some jj1) m1 g1, ?_, rfl, ?_, ?_, rfl⟩
        · show (if (decide (i1 ≤ i2) && decide (i2 ≤ jj1)) = true then
              some (Pat.amount p i1 (some jj1) m1 g1)
            else some (Pat.orP [Pat.amount p i1 (some jj1) m1 g1,
              Pat.amount p i2 none false g2]))
            = some (Pat.amount p i1 (some jj1) m1 g1)
          rw [if_pos (by simp only [Bool.and_eq_true, decide_eq_true_eq]; omega)]
        · show i1 = min i1 i2
          omega
        · show (some jj1 : Option Nat) = some (max jj1 i2)
          rw [Option.some.injEq]
          omega
      · intro h
        simp only [amountHigh, ivIntersects] at h
        have h1 := hw1 jj1 rfl
        show (if (decide (i1 ≤ i2) && decide (i2 ≤ jj1)) = true then
            some (Pat.amount p i1 (some jj1) m1 g1)
          else some (Pat.orP [Pat.amount p i1 (some jj1) m1 g1,
            Pat.amount p i2 none false g2]))
          = some (Pat.orP [Pat.amount p i1 (some jj1) m1 g1, Pat.amount p i2 none false g2])
        rw [if_neg (by simp only [Bool.and_eq_true, decide_eq_true_eq]; omega)]
    -- bounded / or-more
    · constructor
      · intro h
        simp only [amountHigh, ivIntersects] at h
        by_cases hsm : min i1 i2 ≤ 1
        · refine ⟨Pat.multi (canonInner p) (min i1 i2 == 0) true, ?_, rfl, ?_, rfl, hcanon⟩
          · show (if i2 ≤ jj1 then
                some (amountOrMulti (canonInner p) (min i1 i2))
              else some (Pat.orP [Pat.amount p i1 (some jj1) m1 g1,
                Pat.amount p i2 none true g2]))
              = some (Pat.multi (canonInner p) (min i1 i2 == 0) true)
            rw [if_pos (by omega), hmulti _ _ hsm]
          · rw [hmultiInfo _ _ hsm]
        · refine ⟨Pat.amount (canonInner p) (min i1 i2) none true true, ?_, rfl, rfl, rfl,
            hcanon⟩
          show (if i2 ≤ jj1 then
              some (amountOrMulti (canonInner p) (min i1 i2))
            else some (Pat.orP [Pat.amount p i1 (some jj1) m1 g1,
              Pat.amount p i2 none true g2]))
            = some (Pat.amount (canonInner p) (min i1 i2) none true true)
          rw [if_pos (by omega), hbig _ _ (by omega)]
      · intro h
        simp only [amountHigh, ivIntersects] at h
        show (if i2 ≤ jj1 then
            some (amountOrMulti (canonInner p) (min i1 i2))
          else some (Pat.orP [Pat.amount p i1 (some jj1) m1 g1,
            Pat.amount p i2 none true g2]))
          = some (Pat.orP [Pat.amount p i1 (some jj1) m1 g1, Pat.amount p i2 none true g2])
        rw [if_neg (by omega)]
  -- j1 = some jj1, j2 = some jj2
  · constructor
    · intro h
      simp only [amountHigh, ivIntersects] at h
      refine ⟨Pat.amount (canonInner p) (min i1 i2) (some (max jj1 jj2)) false true, ?_,
        rfl, rfl, rfl, hcanon⟩
      show (if rangeIntersects i1 jj1 i2 jj2 = true then
          some (Pat.amount (canonInner p) (min i1 i2) (some (max jj1 jj2)) false true)
        else some (Pat.orP [Pat.amount p i1 (some jj1) m1 g1,
          Pat.amount p i2 (some jj2) m2 g2]))
        = some (Pat.amount (canonInner p) (min i1 i2) (some (max jj1 jj2)) false true)
      rw [if_pos (by simp only [rangeIntersects, decide_eq_true_eq]; omega)]
    · intro h
      simp only [amountHigh, ivIntersects] at h
      show (if rangeIntersects i1 jj1 i2 jj2 = true then
          some (Pat.amount (canonInner p) (min i1 i2) (some (max jj1 jj2)) false true)
        else some (Pat.orP [Pat.amount p i1 (some jj1) m1 g1,
          Pat.amount p i2 (some jj2) m2 g2]))
        = some (Pat.orP [Pat.amount p i1 (some jj1) m1 g1, Pat.amount p i2 (some jj2) m2 g2])
      rw [if_neg (by simp only [rangeIntersects, decide_eq_true_eq]; omega)]

/-- C2 (counterexample): the source merges two `Amount` quantifiers
over the same inner pattern only when their occurrence intervals
*intersect* (`set(range(i1, j1+1)) & set(range(i2, j2+1))`), so the
claim's merely *adjacent* intervals `a\x7b2,4\x7d | a\x7b5,7\x7d` — whose union is
the contiguous `[2,7]` — are *not* merged into `Amount('a', 2, 7)` but
returned as an explicit alternation. -/
theorem c2_amount_union_adjacent_not_merged :
    pyOr (Pat.amount (Pat.charP "a") 2 (some 4) false true)
        (Pat.amount (Pat.charP "a") 5 (some 7) false true)
      = some (Pat.orP [Pat.amount (Pat.charP "a") 2 (some 4) false true,
          Pat.amount (Pat.charP "a") 5 (some 7) false true])
    ∧ (Pat.orP [Pat.amount (Pat.charP "a") 2 (some 4) false true,
        Pat.amount (Pat.charP "a") 5 (some 7) false true]).regex
      = "(?:a\x7b2,4\x7d)|(?:a\x7b5,7\x7d)"
    ∧ patEq (Pat.orP [Pat.amount (Pat.charP "a") 2 (some 4) false true,
          Pat.amount (Pat.charP "a") 5 (some 7) false true])
        (Pat.amount (Pat.charP "a") 2 (some 7) false true) = false :=
  ⟨rfl, rfl, rfl⟩

/-- Witness for the amended C2 theorem at the intersecting input
`a\x7b2,4\x7d | a\x7b4,7\x7d`, which merges to `a\x7b2,7\x7d`. -/
theorem c2_amount_union_merges_iff_intervals_intersect_witness :
    ∃ r, patOrStep (fun _ _ => none)
        (Pat.amount (Pat.charP "a") 2 (some 4) false true)
        (Pat.amount (Pat.charP "a") 4 (some 7) false true) = some r
      ∧ r.isOccurrence = true
      ∧ (quantInfo r).2.1 = min 2 4
      ∧ (quantInfo r).2.2 = ivHighMax (amountHigh 2 (some 4) false) (amountHigh 4 (some 7) false)
      ∧ (quantInfo r).1.regex = (Pat.charP "a").regex :=
  (c2_amount_union_merges_iff_intervals_intersect (fun _ _ => none) (Pat.charP "a")
      2 4 (some 4) (some 7) false false true true
      (fun a h => by simp at h; omega) (fun b h => by simp at h; omega) rfl).1
    (by simp [ivIntersects, amountHigh])

/-- C4: concatenating an occurrence quantifier `q` on the *left* of an
element `e` with the same inner pattern follows the mirrored increment
rule of spec §4.6: the resulting quantifier's inner is `q`'s, its
occurrence interval is the componentwise sum of `q`'s and `e`'s
intervals (`∞` absorbing), and in particular
`Optional(p) + Amount(p, 3) == Amount(p, 3, 4)`. -/
theorem c4_left_quantifier_concat_mirrored_rule (q e : Pat)
    (hq : q.isOccurrence = true)
    (hinner : (quantInfo e).1.regex = (quantInfo q).1.regex) :
    ((quantInfo (leftQuantAdd q e)).1 = (quantInfo q).1
      ∧ (quantInfo (leftQuantAdd q e)).2.1 = (quantInfo q).2.1 + (quantInfo e).2.1
      ∧ (quantInfo (leftQuantAdd q e)).2.2 = ivAdd (quantInfo q).2.2 (quantInfo e).2.2)
    ∧ ∀ p : Pat, leftQuantAdd (Pat.opt p true) (Pat.amount p 3 none false true)
        = Pat.amount p 3 (some 4) false true := by
  constructor
  · cases q with
    | opt p g =>
      cases e with
      | opt p2 g2 => exact ⟨rfl, rfl, rfl⟩
      | multi p2 mz g2 => cases mz <;> exact ⟨rfl, rfl, rfl⟩
      | amount p2 i j m g2 =>
        rcases j with _ | jj
        · cases m <;> simp [leftQuantAdd, quantInfo, ivAdd] <;> omega
        · simp [leftQuantAdd, quantInfo, ivAdd]
          omega
      | base s => exact ⟨rfl, rfl, rfl⟩
      | charP s => exact ⟨rfl, rfl, rfl⟩
      | range a b => exact ⟨rfl, rfl, rfl⟩
      | set l => exact ⟨rfl, rfl, rfl⟩
      | long l => exact ⟨rfl, rfl, rfl⟩
      | orP l => exact ⟨rfl, rfl, rfl⟩
    | multi p mz g =>
      cases e with
      | opt p2 g2 => cases mz <;> exact ⟨rfl, rfl, rfl⟩
      | multi p2 mz2 g2 => cases mz <;> cases mz2 <;> exact ⟨rfl, rfl, rfl⟩
      | amount p2 i j m g2 =>
        cases mz <;> rcases j with _ | jj <;>
          cases m <;> simp [leftQuantAdd, quantInfo, ivAdd] <;> omega
      | base s => cases mz <;> exact ⟨rfl, rfl, rfl⟩
      | charP s => cases mz <;> exact ⟨rfl, rfl, rfl⟩
      | range a b => cases mz <;> exact ⟨rfl, rfl, rfl⟩
      | set l => cases mz <;> exact ⟨rfl, rfl, rfl⟩
      | long l => cases mz <;> exact ⟨rfl, rfl, rfl⟩
      | orP l => cases mz <;> exact ⟨rfl, rfl, rfl⟩
    | amount p i1 j1 m1 g1 =>
      cases e with
      | opt p2 g2 =>
        rcases j1 with _ | a
        · cases m1 <;> simp [leftQuantAdd, quantInfo, ivAdd] <;> omega
        · simp [leftQuantAdd, quantInfo, ivAdd] <;> omega
      | multi p2 mz2 g2 =>
        rcases j1 with _ | a <;> cases m1 <;> cases mz2 <;>
          simp [leftQuantAdd, quantInfo, ivAdd] <;> omega
      | amount p2 i2 j2 m2 g2 =>
        rcases j1 with _ | a <;> rcases j2 with _ | b <;>
          cases m1 <;> cases m2 <;>
          simp only [leftQuantAdd, Option.isSome_some, Option.isSome_none,
            Bool.false_eq_true, Bool.true_eq_false, if_true, if_false] <;>
          (try split) <;> simp_all [quantInfo, ivAdd] <;> omega
      | base s =>
        rcases j1 with _ | a
        · cases m1 <;> simp [leftQuantAdd, quantInfo, ivAdd] <;> omega
        · simp [leftQuantAdd, quantInfo, ivAdd] <;> omega
      | charP s =>
        rcases j1 with _ | a
        · cases m1 <;> simp [leftQuantAdd, quantInfo, ivAdd] <;> omega
        · simp [leftQuantAdd, quantInfo, ivAdd] <;> omega
      | range c d =>
        rcases j1 with _ | a
        · cases m1 <;> simp [leftQuantAdd, quantInfo, ivAdd] <;> omega
        · simp [leftQuantAdd, quantInfo, ivAdd] <;> omega
      | set l =>
        rcases j1 with _ | a
        · cases m1 <;> simp [leftQuantAdd, quantInfo, ivAdd] <;> omega
        · simp [leftQuantAdd, quantInfo, ivAdd] <;> omega
      | long l =>
        rcases j1 with _ | a
        · cases m1 <;> simp [leftQuantAdd, quantInfo, ivAdd] <;> omega
        · simp [leftQuantAdd, quantInfo, ivAdd] <;> omega
      | orP l =>
        rcases j1 with _ | a
        · cases m1 <;> simp [leftQuantAdd, quantInfo, ivAdd] <;> omega
        · simp [leftQuantAdd, quantInfo, ivAdd] <;> omega
    | base s => exact absurd hq (by simp [Pat.isOccurrence])
    | charP s => exact absurd hq (by simp [Pat.isOccurrence])
    | range a b => exact absurd hq (by simp [Pat.isOccurrence])
    | set l => exact absurd hq (by simp [Pat.isOccurrence])
    | long l => exact absurd hq (by simp [Pat.isOccurrence])
    | orP l => exact absurd hq (by simp [Pat.isOccurrence])
  · intro p
    rfl

/-- Witness for C4 at `p = CharRegexPattern('a')`:
`Optional(p) + Amount(p, 3) == Amount(p, 3, 4)`. -/
theorem c4_left_quantifier_concat_mirrored_rule_witness :
    (Pat.opt (Pat.charP "a") true).isOccurrence = true
    ∧ leftQuantAdd (Pat.opt (Pat.charP "a") true)
        (Pat.amount (Pat.charP "a") 3 none false true)
      = Pat.amount (Pat.charP "a") 3 (some 4) false true :=
  ⟨rfl, (c4_left_quantifier_concat_mirrored_rule (Pat.opt (Pat.charP "a") true)
      (Pat.amount (Pat.charP "a") 3 none false true) rfl rfl).2 (Pat.charP "a")⟩

end RegexFactory
